import Mathlib

/-!
Verification of the `rd` pretty-printer (`src/pp.rs`).

This development gives a shallow embedding of the token engine of `src/pp.rs`:
the data model mirrors the `rustdoc_types` shapes that the printer consumes,
and every `with_*` printing function of `pp.rs` is translated into a pure Lean
function producing the list of tokens it would push into the token sink.

Modelling conventions:
- Strings are modelled at the level of characters (Rust byte-slicing of ASCII
  strings coincides with character slicing on the inputs of interest); Rust
  `attr[2..]` panics when the string is shorter than 2 bytes, which the model
  reflects with an explicit panic outcome.
- A Rust panic (`todo!`, `unwrap` on `None`, `unreachable!`, out-of-bounds
  slicing) is modelled as the `Outcome.panicked` error of the `Except` monad,
  distinct from the ordinary `FromItemErrorKind` error returns.
- `Vec::try_reserve` allocation failure (`PusherError`) is not modelled: every
  push succeeds, matching executions where allocation does not fail.
- Token sinks are append-only, so each printing function is modelled as
  returning the list of tokens it appends; the stateful
  `NewLineTabulationPusher` decorator becomes the pure `tabulate` transform of
  the sequence pushed through it.
-/

set_option maxHeartbeats 1600000

namespace Rd

/-- Opaque item identifier (rustdoc `Id`). -/
abbrev Id := String

/-- The subset of rustdoc `ItemKind` used in the error values of the printer. -/
inductive ItemKind where
  | Module | ExternCrate | Import | Struct | StructField | Union | Enum | Variant
  | Function | TypeAlias | OpaqueTy | Constant | Trait | TraitAlias | Impl
  | Static | ForeignType | Macro | ProcMacro | AssocConst | AssocType | Primitive
  deriving DecidableEq, Repr

/-- Rust `Abi`. -/
inductive Abi where
  | Rust
  | C (unwind : Bool)
  | Cdecl (unwind : Bool)
  | Stdcall (unwind : Bool)
  | Fastcall (unwind : Bool)
  | Aapcs (unwind : Bool)
  | Win64 (unwind : Bool)
  | SysV64 (unwind : Bool)
  | System (unwind : Bool)
  | Other (s : String)
  deriving DecidableEq, Repr

/-- rustdoc `Visibility`. -/
inductive Visibility where
  | Public
  | Default
  | Crate
  | Restricted (parent : Id) (path : String)
  deriving DecidableEq, Repr

/-- rustdoc `TraitBoundModifier`. -/
inductive TraitBoundModifier where
  | NoMod
  | Maybe
  | MaybeConst
  deriving DecidableEq, Repr

/-- rustdoc `Constant` (only the fields the printer reads: `expr`, `value`). -/
structure ConstantExpr where
  expr : String
  value : Option String
  deriving DecidableEq, Repr

/-- Function header qualifiers (rustdoc `Header`): `const_`, `unsafe_`, `async_`, `abi`. -/
structure Header where
  isConst : Bool
  isUnsafe : Bool
  isAsync : Bool
  abi : Abi
  deriving DecidableEq, Repr

mutual

/-- rustdoc `Type` (named `RType` because `Type` is a Lean keyword). -/
inductive RType where
  | ResolvedPath (path : Path)
  | Generic (name : String)
  | Primitive (name : String)
  | FunctionPointer (fp : FunctionPointer)
  | Tuple (types : List RType)
  | Slice (type_ : RType)
  | Array (type_ : RType) (len : String)
  | ImplTrait (bounds : List GenericBound)
  | Infer
  | RawPointer (mutable : Bool) (type_ : RType)
  | DynTrait (dt : DynTraitTy)
  | BorrowedRef (lifetime : Option String) (mutable : Bool) (type_ : RType)
  | QualifiedPath (name : String) (self_type : RType) (trait_ : Option Path)
      (args : GenericArgs)
  | Pat

/-- rustdoc `Path`: name, target id, optional generic arguments. -/
inductive Path where
  | mk (name : String) (id : Id) (args : Option GenericArgs)

/-- rustdoc `GenericArgs`. -/
inductive GenericArgs where
  | AngleBracketed (args : List GenericArg) (bindings : List TypeBinding)
  | Parenthesized (inputs : List RType) (output : Option RType)

/-- rustdoc `GenericArg`. -/
inductive GenericArg where
  | Lifetime (s : String)
  | TypeArg (t : RType)
  | Infer
  | Const (c : ConstantExpr)

/-- rustdoc `TypeBinding`. -/
inductive TypeBinding where
  | mk (name : String) (binding : TypeBindingKind)

/-- rustdoc `TypeBindingKind`. -/
inductive TypeBindingKind where
  | Equality (t : TermK)
  | Constraint (bounds : List GenericBound)

/-- rustdoc `Term`. -/
inductive TermK where
  | TypeTerm (t : RType)
  | ConstantTerm (c : ConstantExpr)

/-- rustdoc `GenericBound`. -/
inductive GenericBound where
  | TraitBound (trait_ : Path) (generic_params : List GenericParamDef)
      (modifier : TraitBoundModifier)
  | Outlives (s : String)

/-- rustdoc `GenericParamDef`. -/
inductive GenericParamDef where
  | mk (name : String) (kind : GenericParamDefKind)

/-- rustdoc `GenericParamDefKind`. -/
inductive GenericParamDefKind where
  | Lifetime (outlives : List String)
  | TypeParam (bounds : List GenericBound) (default : Option RType) (synthetic : Bool)
  | ConstParam (type_ : RType) (default : Option String)

/-- rustdoc `WherePredicate`. -/
inductive WherePredicate where
  | BoundPredicate (type_ : RType) (bounds : List GenericBound)
      (generic_params : List GenericParamDef)
  | LifetimePredicate (lifetime : String) (outlives : List String)
  | EqPredicate (lhs : RType) (rhs : TermK)

/-- rustdoc `PolyTrait`. -/
inductive PolyTrait where
  | mk (trait_ : Path) (generic_params : List GenericParamDef)

/-- rustdoc `DynTrait`. -/
inductive DynTraitTy where
  | mk (traits : List PolyTrait) (lifetime : Option String)

/-- rustdoc `FunctionPointer` (decl, generic params, header). -/
inductive FunctionPointer where
  | mk (decl : FnDecl) (generic_params : List GenericParamDef) (header : Header)

/-- rustdoc `FnDecl`: named inputs, optional output, C-variadic flag. -/
inductive FnDecl where
  | mk (inputs : List (String × RType)) (output : Option RType) (c_variadic : Bool)

end

/-- Projection: path name. -/
def Path.name : Path → String
  | .mk n _ _ => n

/-- Projection: path target id. -/
def Path.id : Path → Id
  | .mk _ i _ => i

/-- Projection: path generic arguments. -/
def Path.args : Path → Option GenericArgs
  | .mk _ _ a => a

/-- Projection: parameter name. -/
def GenericParamDef.name : GenericParamDef → String
  | .mk n _ => n

/-- Projection: parameter kind. -/
def GenericParamDef.kind : GenericParamDef → GenericParamDefKind
  | .mk _ k => k

/-- Projection: declared inputs. -/
def FnDecl.inputs : FnDecl → List (String × RType)
  | .mk i _ _ => i

/-- Projection: declared output. -/
def FnDecl.output : FnDecl → Option RType
  | .mk _ o _ => o

/-- Projection: C-variadic flag. -/
def FnDecl.c_variadic : FnDecl → Bool
  | .mk _ _ v => v

/-- rustdoc `Generics`: ordered parameters and where-predicates. -/
structure Generics where
  params : List GenericParamDef
  where_predicates : List WherePredicate

/-- rustdoc `StructKind`. -/
inductive StructKind where
  | Plain (fields : List Id) (fields_stripped : Bool)
  | Tuple (fields : List (Option Id))
  | Unit

/-- rustdoc `Struct`. -/
structure StructTy where
  kind : StructKind
  generics : Generics

/-- rustdoc `Union`. -/
structure UnionTy where
  generics : Generics
  fields_stripped : Bool
  fields : List Id

/-- rustdoc `Enum`. -/
structure EnumTy where
  generics : Generics
  variants_stripped : Bool
  variants : List Id

/-- rustdoc `Discriminant` (only `value` is read by the printer). -/
structure Discriminant where
  value : String

/-- rustdoc `VariantKind`. -/
inductive VariantKind where
  | Plain
  | Tuple (fields : List (Option Id))
  | Struct (fields : List Id) (fields_stripped : Bool)

/-- rustdoc `Variant`. -/
structure VariantTy where
  kind : VariantKind
  discriminant : Option Discriminant

/-- rustdoc `Function`. -/
structure FunctionTy where
  decl : FnDecl
  generics : Generics
  header : Header
  has_body : Bool

/-- rustdoc `Trait` (fields read by the printer). -/
structure TraitTy where
  isUnsafe : Bool
  isAuto : Bool
  items : List Id
  generics : Generics
  bounds : List GenericBound

/-- rustdoc `TraitAlias`. -/
structure TraitAliasTy where
  generics : Generics
  params : List GenericBound

/-- rustdoc `Impl` (fields read by the printer). -/
structure ImplTy where
  isUnsafe : Bool
  generics : Generics
  trait_ : Option Path
  for_ : RType
  blanket_impl : Option RType
  negative : Bool

/-- rustdoc `TypeAlias`. -/
structure TypeAliasTy where
  type_ : RType
  generics : Generics

/-- rustdoc `Static`. -/
structure StaticTy where
  type_ : RType
  expr : String
  mutable : Bool

/-- rustdoc `Import`. -/
structure ImportTy where
  source : String
  name : String
  id : Option Id

/-- rustdoc `MacroKind`. -/
inductive MacroKindTy where
  | Bang
  | Attr
  | Derive

/-- rustdoc `ProcMacro` (only `kind` is read). -/
structure ProcMacroTy where
  kind : MacroKindTy

/-- rustdoc `ItemEnum`: the tagged item payload. -/
inductive ItemEnum where
  | Module
  | ExternCrate
  | Import (i : ImportTy)
  | Union (u : UnionTy)
  | Struct (s : StructTy)
  | StructField (t : RType)
  | Enum (e : EnumTy)
  | Variant (v : VariantTy)
  | Function (f : FunctionTy)
  | Trait (t : TraitTy)
  | TraitAlias (t : TraitAliasTy)
  | Impl (i : ImplTy)
  | TypeAlias (t : TypeAliasTy)
  | OpaqueTy
  | Constant (type_ : RType) (const_ : ConstantExpr)
  | Static (s : StaticTy)
  | ForeignType
  | Macro (body : String)
  | ProcMacro (p : ProcMacroTy)
  | AssocConst (type_ : RType) (default : Option String)
  | AssocType (generics : Generics) (bounds : List GenericBound) (default : Option RType)
  | Primitive (name : String)

/-- rustdoc `Item` (the fields read by the printer). -/
structure Item where
  id : Id
  name : Option String
  visibility : Visibility
  attrs : List String
  inner : ItemEnum

/-- The item index, `Id -> Item`; a `HashMap` in the source, modelled as an
association list with first-match lookup. -/
abbrev Index := List (Id × Item)

/-- Rust `HashMap::get`. -/
def Index.get (idx : Index) (id : Id) : Option Item :=
  idx.lookup id

/-- Layout tokens (`SpecialToken` in `pp.rs`). -/
inductive SpecialToken where
  | NewLine
  | Space
  | Tabulation
  | Hidden (all : Bool)
  | Ignored
  deriving DecidableEq, Repr

/-- Output tokens (`Token` in `pp.rs`). -/
inductive Token where
  | Ident (s : String) (id : Option Id)
  | Kw (s : String)
  | Ponct (s : String)
  | Special (s : SpecialToken)
  | Attr (s : String)
  | Primitive (s : String)
  deriving DecidableEq, Repr

/-- Errors `FromItemErrorKind` of `pp.rs` (the allocation-failure `PusherError` member
is not modelled, see the header note). -/
inductive FromItemErrorKind where
  | InvalidItem
  | ChildrenNotFound (id : Id)
  | UnexpectedItemType (id : Id) (kind : ItemKind)
  | AttributeParsing
  deriving DecidableEq, Repr

/-- Every way a printing function can abort: an error return of the source, or
a Rust panic (`todo!`, `unwrap` on `None`, `unreachable!`, slicing out of
bounds). -/
inductive Outcome where
  | err (e : FromItemErrorKind)
  | panicked (msg : String)
  deriving DecidableEq, Repr

/-- Result monad of the printing functions. -/
abbrev PP (α : Type) := Except Outcome α

instance {ε α : Type} [DecidableEq ε] [DecidableEq α] : DecidableEq (Except ε α) := fun
  | .ok a, .ok b =>
      if h : a = b then .isTrue (by rw [h])
      else .isFalse (by intro hh; injection hh; contradiction)
  | .ok _, .error _ => .isFalse (by intro h; injection h)
  | .error _, .ok _ => .isFalse (by intro h; injection h)
  | .error a, .error b =>
      if h : a = b then .isTrue (by rw [h])
      else .isFalse (by intro hh; injection hh; contradiction)

/-- Raise a Rust panic. -/
def panicPP {α : Type} (msg : String) : PP α :=
  .error (.panicked msg)

/-- Raise a `FromItemErrorKind` error. -/
def errPP {α : Type} (e : FromItemErrorKind) : PP α :=
  .error (.err e)

/-- Shorthand: single-space layout token. -/
def spT : Token := .Special .Space

/-- Shorthand: newline layout token. -/
def nlT : Token := .Special .NewLine

/-- Shorthand: tabulation layout token. -/
def tabT : Token := .Special .Tabulation

/-- Shorthand: opening-brace punctuation token. -/
def obT : Token := .Ponct "\x7b"

/-- Shorthand: closing-brace punctuation token. -/
def cbT : Token := .Ponct "\x7d"

/-- Interleave `between` between consecutive rendered children. -/
def joinBetween (between : List Token) : List (List Token) → List Token
  | [] => []
  | [r] => r
  | r :: r2 :: rs => r ++ between ++ joinBetween between (r2 :: rs)

/-- The emission pattern of the source `with` combinator, applied to already
rendered children: nothing when there are no children, otherwise the `before`
tokens, the children interleaved with `between`, then the `after` tokens. -/
def withRendered (before after between : List Token) (rs : List (List Token)) :
    List Token :=
  if rs.isEmpty then [] else before ++ joinBetween between rs ++ after

/-- Effectful map used to render child lists in declared order, aborting at the
first failing child (as `collect::<Result<Vec<_>, _>>` does). -/
def ppMapM {α β : Type} (f : α → PP β) : List α → PP (List β)
  | [] => pure []
  | x :: xs => do
      let r ← f x
      let rs ← ppMapM f xs
      pure (r :: rs)

/-- The source `with` combinator: render each child of `items` with `f` in
declared order and emit `before`/`between`/`after` around the results (only
when `items` is non-empty); `Option::None` decorations of the source are the
empty token list here. -/
def withList {α : Type} (f : α → PP (List Token))
    (before after between : List Token) (items : List α) : PP (List Token) := do
  let rs ← ppMapM f items
  pure (withRendered before after between rs)

/-- Embeds `with_abi` of `pp.rs`: silent for the Rust ABI, otherwise
`extern "<abi>" `. -/
def with_abi (abi : Abi) : List Token :=
  if abi = .Rust then []
  else
    [Token.Kw "extern", spT, Token.Ponct "\"",
     Token.Ident
       (match abi with
        | .Rust => "Rust"
        | .C false => "C"
        | .C true => "C-unwind"
        | .Cdecl false => "cdecl"
        | .Cdecl true => "cdecl-unwind"
        | .Stdcall false => "stdcall"
        | .Stdcall true => "stdcall-unwind"
        | .Fastcall false => "fastcall"
        | .Fastcall true => "fastcall-unwind"
        | .Aapcs false => "aapcs"
        | .Aapcs true => "aapcs-unwind"
        | .Win64 false => "win64"
        | .Win64 true => "win64-unwind"
        | .SysV64 false => "sysv64"
        | .SysV64 true => "sysv64-unwind"
        | .System false => "system"
        | .System true => "system-unwind"
        | .Other s => s)
       none,
     Token.Ponct "\"", spT]

/-- Embeds `with_header` of `pp.rs`: `const`/`unsafe`/`async` qualifiers then ABI. -/
def with_header (header : Header) : List Token :=
  (if header.isConst then [Token.Kw "const", spT] else []) ++
  (if header.isUnsafe then [Token.Kw "unsafe", spT] else []) ++
  (if header.isAsync then [Token.Kw "async", spT] else []) ++
  with_abi header.abi

/-- Is this generic parameter a lifetime parameter? (the `pivot` predicate of
`with_generic_bound`). -/
def isLifetimeParam (p : GenericParamDef) : Bool :=
  match p.kind with
  | .Lifetime _ => true
  | _ => false

mutual

/-- Embeds `with_type` of `pp.rs`. -/
def with_type : RType → PP (List Token)
  | .ResolvedPath path => with_path path
  | .Generic g => pure [Token.Ident g none]
  | .Primitive p =>
      if p = "never" then pure [Token.Ident "!" none] else pure [Token.Primitive p]
  | .FunctionPointer (.mk (.mk inputs output _) gparams header) => do
      let gs ← render_generic_param_defs gparams
      let ins ← render_fnptr_inputs inputs
      let outTs ← match output with
        | some o => do
            let t ← with_type o
            pure ([spT, Token.Ponct "-", Token.Ponct ">", spT] ++ t)
        | none => pure []
      pure (with_header header ++ [Token.Kw "fn"] ++
        withRendered [Token.Ponct "<"] [Token.Ponct ">"] [Token.Ponct ",", spT] gs ++
        [Token.Ponct "("] ++ withRendered [] [] [Token.Ponct ",", spT] ins ++
        [Token.Ponct ")"] ++ outTs)
  | .Tuple types => do
      let rs ← render_types types
      pure ([Token.Ponct "("] ++ withRendered [] [] [Token.Ponct ",", spT] rs ++
        [Token.Ponct ")"])
  | .Slice t => do
      let ts ← with_type t
      pure ([Token.Ponct "["] ++ ts ++ [Token.Ponct "]"])
  | .Array t len => do
      let ts ← with_type t
      pure ([Token.Ponct "["] ++ ts ++
        [Token.Ponct ";", spT, Token.Ident len none, Token.Ponct "]"])
  | .ImplTrait bounds => do
      let rs ← render_generic_bounds bounds
      pure (withRendered [Token.Kw "impl", spT] []
        [spT, Token.Ponct "+", spT] rs)
  | .Infer => pure [Token.Ident "_" none]
  | .RawPointer mutable t => do
      let ts ← with_type t
      pure ([Token.Kw "*", Token.Kw (if mutable then "mut" else "const"), spT] ++ ts)
  | .DynTrait (.mk traits lifetime) => do
      let rs ← render_poly_traits traits
      pure ([Token.Kw "dyn"] ++
        withRendered [spT] [] [spT, Token.Ponct "+", spT] rs ++
        (match lifetime with
         | some lt => [spT, Token.Ponct "+", Token.Ident lt none]
         | none => []))
  | .BorrowedRef lifetime mutable t => do
      let ts ← with_type t
      pure ([Token.Kw "&"] ++
        (match lifetime with
         | some lt => [Token.Ident lt none, spT]
         | none => []) ++
        (if mutable then [Token.Kw "mut", spT] else []) ++ ts)
  | .QualifiedPath name self_type trait_ args => do
      match trait_ with
      | some path => do
          let st ← with_type self_type
          let pt ← with_path path
          let ga ← with_generic_args args
          pure ([Token.Ponct "<"] ++ st ++ [spT, Token.Kw "as", spT] ++ pt ++
            [Token.Ponct ">", Token.Ponct "::", Token.Ident name none] ++ ga)
      | none => do
          let st ← with_type self_type
          let ga ← with_generic_args args
          pure (st ++ [Token.Ponct "::", Token.Ident name none] ++ ga)
  | .Pat => panicPP "Type::Pat is unstable"

/-- Embeds `with_path` of `pp.rs`. -/
def with_path : Path → PP (List Token)
  | .mk name id args => do
      let ga ← match args with
        | some ga => with_generic_args ga
        | none => pure []
      pure (Token.Ident name (some id) :: ga)

/-- Embeds `with_generic_args` of `pp.rs`. -/
def with_generic_args : GenericArgs → PP (List Token)
  | .AngleBracketed args bindings => do
      if args.isEmpty ∧ bindings.isEmpty then pure []
      else do
        let ra ← render_generic_args args
        let rb ← render_type_bindings bindings
        pure ([Token.Ponct "<"] ++
          withRendered [] [] [Token.Ponct ",", spT] ra ++
          withRendered (if args.isEmpty then [] else [Token.Ponct ",", spT]) []
            [Token.Ponct ",", spT] rb ++
          [Token.Ponct ">"])
  | .Parenthesized inputs output => do
      let rs ← render_types inputs
      let outTs ← match output with
        | some o => do
            let t ← with_type o
            pure ([spT, Token.Ponct "-", Token.Ponct ">", spT] ++ t)
        | none => pure []
      pure (withRendered [Token.Ponct "("] [Token.Ponct ")"]
        [Token.Ponct ",", spT] rs ++ outTs)

/-- Embeds `with_generic_arg` of `pp.rs`. -/
def with_generic_arg : GenericArg → PP (List Token)
  | .Lifetime s => pure [Token.Ident s none]
  | .TypeArg t => with_type t
  | .Infer => pure [Token.Kw "_"]
  | .Const c =>
      pure ([Token.Kw "const", spT, Token.Ident c.expr none, Token.Ponct ":", spT,
        Token.Ident "?" none] ++
        (match c.value with
         | some v => [spT, Token.Ponct "=", spT, Token.Ident v none]
         | none => []))

/-- Embeds `with_type_binding` of `pp.rs`. -/
def with_type_binding : TypeBinding → PP (List Token)
  | .mk name binding => do
      match binding with
      | .Equality term => do
          let tt ← match term with
            | .TypeTerm t => with_type t
            | .ConstantTerm _ => panicPP "un-handle constant"
          pure ([Token.Ident name none, spT, Token.Ponct "=", spT] ++ tt)
      | .Constraint bounds => do
          let rs ← render_generic_bounds bounds
          pure (withRendered [] [] [Token.Ponct ",", spT] rs)

/-- Embeds `with_generic_bound` of `pp.rs`. The source renders the leading-lifetime
prefix of the parameter list, then the trait path, then the remaining
parameters; here all parameters are rendered first and the rendered list is
split at the same pivot, which yields the same tokens and the same success or
failure behaviour (only the identity of the reported panic can differ when
several sub-renderings would fail). -/
def with_generic_bound : GenericBound → PP (List Token)
  | .TraitBound trait_ gparams modifier => do
      let modToks : List Token :=
        match modifier with
        | .NoMod => []
        | .Maybe => [Token.Kw "?"]
        | .MaybeConst => [Token.Kw "?const"]
      let pivot := (gparams.takeWhile isLifetimeParam).length
      let rs ← render_generic_param_defs gparams
      let pt ← with_path trait_
      pure (modToks ++
        withRendered [Token.Ponct "for", Token.Ponct "<"] [Token.Ponct ">", spT]
          [Token.Ponct ",", spT] (rs.take pivot) ++
        pt ++
        withRendered [] [] [spT, Token.Ponct "+", spT] (rs.drop pivot))
  | .Outlives s => pure [Token.Ident s none]

/-- Embeds `with_generic_param_def` of `pp.rs`: a type parameter marked `synthetic`
emits nothing at all. -/
def with_generic_param_def : GenericParamDef → PP (List Token)
  | .mk name kind => do
      match kind with
      | .Lifetime outlives =>
          pure (Token.Ident name none ::
            withRendered [Token.Ponct ":", spT] [] [spT, Token.Ponct "+", spT]
              (outlives.map (fun o => [Token.Ident o none])))
      | .TypeParam bounds default synthetic => do
          if synthetic then pure []
          else do
            let rs ← render_generic_bounds bounds
            let defTs ← match default with
              | some d => do
                  let t ← with_type d
                  pure ([spT, Token.Ponct "=", spT] ++ t)
              | none => pure []
            pure (Token.Ident name none ::
              withRendered [Token.Ponct ":", spT] [] [spT, Token.Ponct "+", spT] rs ++
              defTs)
      | .ConstParam type_ default => do
          let ts ← with_type type_
          pure ([Token.Kw "const", spT, Token.Ident name none, Token.Ponct ":", spT] ++
            ts ++
            (match default with
             | some d => [spT, Token.Ponct "=", spT, Token.Ident d none]
             | none => []))

/-- Embeds `with_poly_trait` of `pp.rs`. -/
def with_poly_trait : PolyTrait → PP (List Token)
  | .mk trait_ gparams => do
      let rs ← render_generic_param_defs gparams
      let pt ← with_path trait_
      pure (withRendered [Token.Kw "for", Token.Ponct "<"] [Token.Ponct ">"]
        [Token.Ponct ",", spT] rs ++ pt)

/-- Render a list of types in declared order. -/
def render_types : List RType → PP (List (List Token))
  | [] => pure []
  | t :: ts => do
      let r ← with_type t
      let rs ← render_types ts
      pure (r :: rs)

/-- Render a list of generic arguments in declared order. -/
def render_generic_args : List GenericArg → PP (List (List Token))
  | [] => pure []
  | a :: as_ => do
      let r ← with_generic_arg a
      let rs ← render_generic_args as_
      pure (r :: rs)

/-- Render a list of type bindings in declared order. -/
def render_type_bindings : List TypeBinding → PP (List (List Token))
  | [] => pure []
  | b :: bs => do
      let r ← with_type_binding b
      let rs ← render_type_bindings bs
      pure (r :: rs)

/-- Render a list of generic bounds in declared order. -/
def render_generic_bounds : List GenericBound → PP (List (List Token))
  | [] => pure []
  | b :: bs => do
      let r ← with_generic_bound b
      let rs ← render_generic_bounds bs
      pure (r :: rs)

/-- Render a list of generic parameter definitions in declared order. -/
def render_generic_param_defs : List GenericParamDef → PP (List (List Token))
  | [] => pure []
  | p :: ps => do
      let r ← with_generic_param_def p
      let rs ← render_generic_param_defs ps
      pure (r :: rs)

/-- Render a list of poly-traits in declared order. -/
def render_poly_traits : List PolyTrait → PP (List (List Token))
  | [] => pure []
  | p :: ps => do
      let r ← with_poly_trait p
      let rs ← render_poly_traits ps
      pure (r :: rs)

/-- Render fn-pointer inputs (the source closure prints only the type and
ignores the parameter name). -/
def render_fnptr_inputs : List (String × RType) → PP (List (List Token))
  | [] => pure []
  | (_, t) :: ins => do
      let r ← with_type t
      let rs ← render_fnptr_inputs ins
      pure (r :: rs)

end

/-- Does a generic parameter name start with the reserved synthetic marker
`impl`? (`starts_with("impl")`, at character level). -/
def isImplParam (p : GenericParamDef) : Bool :=
  (match p.kind with
   | .TypeParam _ _ _ => true
   | _ => false) && (p.name.toList.take 4 == "impl".toList)

/-- Embeds `without_impl` of `pp.rs`: `items.iter().rev().skip_while(..).count()`
computes the length that survives after stripping the trailing run of
`impl`-named type parameters, then the slice `&items[..until]` keeps the
prefix of that length. -/
def without_impl (items : List GenericParamDef) : List GenericParamDef :=
  items.take ((items.reverse.dropWhile isImplParam).length)

/-- Embeds `with_visibility` of `pp.rs` (infallible, hence pure). -/
def with_visibility : Visibility → List Token
  | .Public => [Token.Kw "pub", spT]
  | .Default => []
  | .Crate => [Token.Kw "pub", Token.Ponct "(", Token.Kw "crate", Token.Ponct ")", spT]
  | .Restricted parent path =>
      [Token.Kw "pub", Token.Ponct "(", Token.Kw "in", spT,
       Token.Ident path (some parent), Token.Ponct ")", spT]

/-- Allow-list `ALLOWED_ATTRIBUTES` of `pp.rs`. -/
def ALLOWED_ATTRIBUTES : List String :=
  ["must_use", "export_name", "link_section", "no_mangle", "repr", "non_exhaustive"]

/-- Attribute-name extraction of `with_attrs`: Rust slices `attr[2..]`, which
panics when the string is shorter than 2 (out-of-bounds slice); on the
remainder it searches the first character that is neither ASCII-alphanumeric
nor an underscore, and errors with `AttributeParsing` when there is none. -/
def attr_name (attr : String) : PP String :=
  let cs := attr.toList
  if cs.length < 2 then panicPP "byte index 2 is out of bounds"
  else
    match (cs.drop 2).findIdx? (fun c => (!c.isAlphanum) && c != '_') with
    | none => errPP .AttributeParsing
    | some i => pure (String.mk ((cs.drop 2).take i))

/-- Loop of `with_attrs`, carrying the `printed` counter. -/
def with_attrs_go : List String → Nat → PP (List Token)
  | [], printed => pure (if printed ≠ 0 then [nlT] else [])
  | attr :: rest, printed => do
      let name ← attr_name attr
      if ALLOWED_ATTRIBUTES.contains name then do
        let tl ← with_attrs_go rest (printed + 1)
        pure ((if printed ≠ 0 then [nlT] else []) ++ Token.Attr attr :: tl)
      else
        with_attrs_go rest printed

/-- Embeds `with_attrs` of `pp.rs`: keep only allow-listed attributes, one per line,
with a final newline when at least one was printed. -/
def with_attrs (attrs : List String) : PP (List Token) :=
  with_attrs_go attrs 0

/-- Embeds `with_where_predicate` of `pp.rs`. -/
def with_where_predicate : WherePredicate → PP (List Token)
  | .BoundPredicate type_ bounds generic_params => do
      let tt ← with_type type_
      let gp ← withList with_generic_param_def
        [spT, Token.Kw "for", Token.Ponct "<"] [Token.Ponct ">", spT]
        [Token.Ponct ",", spT] generic_params
      let bs ← withList with_generic_bound [] [] [spT, Token.Ponct "+", spT] bounds
      pure (tt ++ gp ++ [Token.Ponct ":", spT] ++ bs)
  | .LifetimePredicate lifetime outlives => do
      let os ← withList (fun o => pure [Token.Ident o none]) [] []
        [spT, Token.Ponct "+", spT] outlives
      pure ([Token.Ident lifetime none, Token.Ponct ":", spT] ++ os)
  | .EqPredicate lhs rhs => do
      let lt ← with_type lhs
      let rt ← match rhs with
        | .TypeTerm ty => with_type ty
        | .ConstantTerm _ => panicPP "un-handle constant"
      pure (lt ++ [Token.Ponct ":", spT] ++ rt)

/-- Rust `item.name.as_ref().unwrap()`: panics when the item has no name. -/
def unwrapName (item : Item) : PP String :=
  match item.name with
  | some n => pure n
  | none => panicPP "called Option::unwrap on a None value"

/-- Embeds `with_struct_field` of `pp.rs`. -/
def with_struct_field (item : Item) (struct_field : RType) : PP (List Token) := do
  let a ← with_attrs item.attrs
  let t ← with_type struct_field
  pure (a ++ with_visibility item.visibility ++
    (match item.name with
     | some n => [Token.Ident n none, Token.Ponct ":", spT]
     | none => []) ++ t)

/-- The parameter-printing closure of `with_function`: a `self` receiver
prints without the `name: ` prefix. -/
def renderFnInput : String × RType → PP (List Token)
  | (name, ty) => do
      let t ← with_type ty
      pure ((if name ≠ "self" then [Token.Ident name none, Token.Ponct ":", spT]
             else []) ++ t)

/-- The `if let Some(name) = &item.name` snippet shared by the item printers:
a space then the name as an anchor-carrying identifier. -/
def nameTokens (name : Option String) (id : Id) : List Token :=
  match name with
  | some n => [spT, Token.Ident n (some id)]
  | none => []

/-- Parameter-list dispatch of `with_function`: at most two declared inputs
are rendered on one line separated by comma-and-space; three or more are each
rendered on their own line (preceded by newline and tabulation, separated by
comma-newline-tabulation, with a trailing newline). -/
def fnInputs (decl : FnDecl) : PP (List Token) :=
  if decl.inputs.length ≤ 2 then
    withList renderFnInput [] [] [Token.Ponct ",", spT] decl.inputs
  else
    withList renderFnInput [nlT, tabT] [nlT] [Token.Ponct ",", nlT, tabT]
      decl.inputs

/-- Return-type rendering of `with_function`. -/
def fnOutput (decl : FnDecl) : PP (List Token) :=
  match decl.output with
  | some o => do
      let t ← with_type o
      pure ([spT, Token.Ponct "-", Token.Ponct ">", spT] ++ t)
  | none => pure []

/-- Variadic-marker tokens of `with_function`: `, ...` after at least one
declared input, bare `...` otherwise, nothing when not C-variadic. -/
def varTokens (decl : FnDecl) : List Token :=
  if decl.c_variadic then
    (if 1 ≤ decl.inputs.length then [Token.Ponct ",", spT] else []) ++
    [Token.Kw "..."]
  else []

/-- Embeds `with_function` of `pp.rs`. -/
def with_function (item : Item) (f : FunctionTy) (standalone : Bool) :
    PP (List Token) := do
  let a ← with_attrs item.attrs
  let gps ← withList with_generic_param_def [Token.Ponct "<"] [Token.Ponct ">"]
    [Token.Ponct ",", spT] (without_impl f.generics.params)
  let ins ← fnInputs f.decl
  let outTs ← fnOutput f.decl
  let wps ← withList with_where_predicate
    [nlT, Token.Kw "where", nlT, tabT] [] [Token.Ponct ",", nlT, tabT]
    f.generics.where_predicates
  pure (a ++ with_visibility item.visibility ++ with_header f.header ++
    [Token.Kw "fn"] ++ nameTokens item.name item.id ++
    gps ++ [Token.Ponct "("] ++ ins ++ varTokens f.decl ++
    [Token.Ponct ")"] ++ outTs ++ wps ++
    (if !standalone then
      (if f.has_body then
        (if f.generics.where_predicates.isEmpty then [spT]
         else [Token.Ponct ",", nlT]) ++
        [obT, spT, Token.Special .Ignored, spT, cbT]
       else [Token.Ponct ";"])
     else []))

/-- Embeds `with_assoc_const` of `pp.rs`. -/
def with_assoc_const (item : Item) (type_ : RType) (default : Option String)
    (standalone : Bool) : PP (List Token) := do
  let n ← unwrapName item
  let t ← with_type type_
  pure ([Token.Kw "const", spT, Token.Ident n (some item.id), Token.Ponct ":", spT] ++
    t ++
    (match default with
     | some d => [spT, Token.Ponct "=", spT, Token.Ident d none]
     | none => []) ++
    (if !standalone then [Token.Ponct ";"] else []))

/-- Embeds `with_assoc_type` of `pp.rs`. -/
def with_assoc_type (item : Item) (bounds : List GenericBound)
    (default : Option RType) (generics : Generics) (standalone : Bool) :
    PP (List Token) := do
  let n ← unwrapName item
  let gps ← withList with_generic_param_def [Token.Ponct "<"] [Token.Ponct ">"]
    [Token.Ponct ",", spT] generics.params
  let bds ← withList with_generic_bound [Token.Ponct ":", spT] []
    [Token.Ponct ",", spT] bounds
  let defTs ← match default with
    | some d => do
        let t ← with_type d
        pure ([spT, Token.Ponct "=", spT] ++ t)
    | none => pure []
  let wps ← withList with_where_predicate
    [nlT, Token.Kw "where", nlT, tabT] [] [Token.Ponct ",", nlT, tabT]
    generics.where_predicates
  pure ([Token.Kw "type", spT, Token.Ident n (some item.id)] ++ gps ++ bds ++
    defTs ++ wps ++ (if !standalone then [Token.Ponct ";"] else []))

/-- Resolve a list of struct-field ids through the index (`ChildrenNotFound`
for a dangling id, `UnexpectedItemType` when the resolved item is not a
struct field), in declared order, stopping at the first failure. -/
def resolveStructFields (idx : Index) : List Id → PP (List (Item × RType))
  | [] => pure []
  | id :: rest =>
      match Index.get idx id with
      | none => errPP (.ChildrenNotFound id)
      | some it =>
          match it.inner with
          | .StructField ty => do
              let tl ← resolveStructFields idx rest
              pure ((it, ty) :: tl)
          | _ => errPP (.UnexpectedItemType id .StructField)

/-- Resolve tuple-struct fields (`None` positions stay `None`). -/
def resolveOptStructFields (idx : Index) :
    List (Option Id) → PP (List (Option (Item × RType)))
  | [] => pure []
  | none :: rest => do
      let tl ← resolveOptStructFields idx rest
      pure (none :: tl)
  | some id :: rest =>
      match Index.get idx id with
      | none => errPP (.ChildrenNotFound id)
      | some it =>
          match it.inner with
          | .StructField ty => do
              let tl ← resolveOptStructFields idx rest
              pure (some (it, ty) :: tl)
          | _ => errPP (.UnexpectedItemType id .StructField)

/-- Resolve tuple-variant fields: like tuple-struct fields, but only the field
type is kept (`with_enum_variant` discards the field item). -/
def resolveVariantTupleFields (idx : Index) :
    List (Option Id) → PP (List (Option RType))
  | [] => pure []
  | none :: rest => do
      let tl ← resolveVariantTupleFields idx rest
      pure (none :: tl)
  | some id :: rest =>
      match Index.get idx id with
      | none => errPP (.ChildrenNotFound id)
      | some it =>
          match it.inner with
          | .StructField ty => do
              let tl ← resolveVariantTupleFields idx rest
              pure (some ty :: tl)
          | _ => errPP (.UnexpectedItemType id .StructField)

/-- Resolve a list of enum-variant ids through the index. -/
def resolveVariants (idx : Index) : List Id → PP (List (Item × VariantTy))
  | [] => pure []
  | id :: rest =>
      match Index.get idx id with
      | none => errPP (.ChildrenNotFound id)
      | some it =>
          match it.inner with
          | .Variant v => do
              let tl ← resolveVariants idx rest
              pure ((it, v) :: tl)
          | _ => errPP (.UnexpectedItemType id .Variant)

/-- Embeds `with_opt_type` of `pp.rs`. -/
def with_opt_type : Option RType → PP (List Token)
  | some t => with_type t
  | none => pure [Token.Ponct "_"]

/-- Is this token the newline layout token? -/
def isNewLineT : Token → Bool
  | .Special .NewLine => true
  | _ => false

/-- The `NewLineTabulationPusher` decorator as a pure transform of the pushed
token sequence: the boolean is the pending-tabulation flag of the decorator, which
starts `true` and is set again after each forwarded newline. -/
def tabulate : Bool → List Token → List Token
  | _, [] => []
  | b, t :: ts => (if b then [tabT] else []) ++ t :: tabulate (isNewLineT t) ts

/-- Field/variant loop of the plain-struct and enum bodies: newline, child,
trailing comma, for each child. -/
def linesBlock : List (List Token) → List Token
  | [] => []
  | r :: rs => (nlT :: r ++ [Token.Ponct ","]) ++ linesBlock rs

/-- Field loop of the union body: one leading newline, then children separated
by newlines, each followed by a comma (same token stream as `linesBlock` on a
non-empty list, but coded the way the source codes it). -/
def unionFieldsBlock (rs : List (List Token)) : List Token :=
  nlT :: joinBetween [nlT] (rs.map (fun r => r ++ [Token.Ponct ","]))

/-- Member loop of the trait body: each member surrounded by newlines. -/
def traitItemsBlock (rs : List (List Token)) : List Token :=
  (rs.map (fun r => nlT :: r ++ [nlT])).flatten

/-- Brace content of a struct-form enum variant (`with_enum_variant`,
`VariantKind::Struct`): visible fields joined by comma-and-space, with `, ...`
appended when stripped; a lone `_` when stripped with no visible field; and
the source-level `unreachable!` panic when there is no visible field and the
stripped flag is clear. -/
def variantStructBody (items : List (Item × RType)) (fields_stripped : Bool) :
    PP (List Token) :=
  if !items.isEmpty then do
    let rs ← ppMapM (fun p => with_struct_field p.1 p.2) items
    pure (joinBetween [Token.Ponct ",", spT] rs ++
      (if fields_stripped then [Token.Ponct ",", spT, Token.Ponct "..."]
       else []))
  else if fields_stripped then pure [Token.Ponct "_"]
  else panicPP "Enum with 0 variants and non-stripped"

/-- Brace content of a plain (record) struct: each resolved field on its own
line with a trailing comma, a some-hidden placeholder line when stripped with
visible fields, the all-hidden placeholder when stripped with no visible
field, and nothing otherwise (all under the tabulation decorator, as in the
source). -/
def plainBody (items : List (Item × RType)) (fields_stripped : Bool) :
    PP (List Token) :=
  if !items.isEmpty then do
    let rs ← ppMapM (fun p => with_struct_field p.1 p.2) items
    pure (tabulate true (linesBlock rs ++
      (if fields_stripped then [nlT, Token.Special (.Hidden false)] else [])) ++
      [nlT])
  else if fields_stripped then pure [spT, Token.Special (.Hidden true), spT]
  else pure []

/-- Brace content of a union (same hidden-field policy as `plainBody`, with
the field loop specific to unions). -/
def unionBody (items : List (Item × RType)) (fields_stripped : Bool) :
    PP (List Token) :=
  if !items.isEmpty then do
    let rs ← ppMapM (fun p => with_struct_field p.1 p.2) items
    pure (tabulate true (unionFieldsBlock rs ++
      (if fields_stripped then [nlT, Token.Special (.Hidden false)] else [])) ++
      [nlT])
  else if fields_stripped then pure [spT, Token.Special (.Hidden true), spT]
  else pure []

/-- Embeds `with_enum_variant` of `pp.rs`. -/
def with_enum_variant (idx : Index) (item : Item) (v : VariantTy) :
    PP (List Token) := do
  let n ← unwrapName item
  match v.kind with
  | .Plain =>
      pure (Token.Ident n none ::
        (match v.discriminant with
         | some d => [spT, Token.Ponct "=", spT, Token.Ident d.value none]
         | none => []))
  | .Tuple fields => do
      let items ← resolveVariantTupleFields idx fields
      let ts ← withList with_opt_type [Token.Ponct "("] [Token.Ponct ")"]
        [Token.Ponct ",", spT] items
      pure (Token.Ident n none :: ts)
  | .Struct fields fields_stripped => do
      let items ← resolveStructFields idx fields
      let body ← variantStructBody items fields_stripped
      pure (Token.Ident n none :: spT :: obT :: spT :: body ++ [spT, cbT])

/-- Brace content of an enum: each resolved variant on its own line with a
trailing comma, the some-hidden placeholder line when stripped with visible
variants, the all-hidden placeholder when stripped with no visible variant,
and nothing otherwise. -/
def enumBody (idx : Index) (items : List (Item × VariantTy))
    (variants_stripped : Bool) : PP (List Token) :=
  if !items.isEmpty then do
    let rs ← ppMapM (fun p => with_enum_variant idx p.1 p.2) items
    pure (tabulate true (linesBlock rs ++
      (if variants_stripped then [nlT, Token.Special (.Hidden false)] else [])) ++
      [nlT])
  else if variants_stripped then pure [spT, Token.Special (.Hidden true), spT]
  else pure []

/-- Resolve and print one trait member (`AssocConst`, `AssocType`, `Function`;
anything else is a shape error — the source itself notes that the reported
kind `Trait` is wrong). -/
def resolveTraitMember (idx : Index) (id : Id) : PP (List Token) :=
  match Index.get idx id with
  | none => errPP (.ChildrenNotFound id)
  | some it =>
      match it.inner with
      | .AssocConst type_ default => with_assoc_const it type_ default false
      | .AssocType generics bounds default =>
          with_assoc_type it bounds default generics false
      | .Function f => with_function it f false
      | _ => errPP (.UnexpectedItemType id .Trait)

/-- Result alias mirroring the source `Tokens` newtype over the token list. -/
abbrev Tokens := List Token

/-- Helper: find the last `::` separator (`str::rsplit_once(\"::\")`). -/
def rsplitOnceColons : List Char → Option (List Char × List Char)
  | [] => none
  | c :: rest =>
      match rsplitOnceColons rest with
      | some (l, r) => some (c :: l, r)
      | none =>
          if c = ':' ∧ rest.head? = some ':' then some ([], rest.drop 1)
          else none

/-- Embeds `Tokens::from_type` of `pp.rs`. -/
def Tokens.from_type (type_ : RType) : PP Tokens :=
  with_type type_

/-- Embeds `Tokens::from_item` of `pp.rs`. -/
def Tokens.from_item (item : Item) (idx : Index) : PP Tokens :=
  match item.inner with
  | .Module => errPP .InvalidItem
  | .ExternCrate => errPP .InvalidItem
  | .Import imp => do
      let a ← with_attrs item.attrs
      pure (a ++ with_visibility item.visibility ++
        [Token.Kw "use", spT, Token.Ident imp.source imp.id] ++
        (match rsplitOnceColons imp.source.toList with
         | some (_, nm) =>
             if String.mk nm ≠ imp.name then
               [spT, Token.Kw "as", spT, Token.Ident imp.name none]
             else []
         | none =>
             if imp.source ≠ imp.name then
               [spT, Token.Kw "as", spT, Token.Ident imp.name none]
             else []) ++
        [Token.Ponct ";"])
  | .Union u => do
      let a ← with_attrs item.attrs
      let gps ← withList with_generic_param_def [Token.Ponct "<"] [Token.Ponct ">"]
        [Token.Ponct ",", spT] u.generics.params
      let wps ← withList with_where_predicate
        [nlT, Token.Kw "where", nlT, tabT] [Token.Ponct ",", nlT]
        [Token.Ponct ",", nlT, tabT] u.generics.where_predicates
      let items ← resolveStructFields idx u.fields
      let body ← unionBody items u.fields_stripped
      pure (a ++ with_visibility item.visibility ++ [Token.Kw "union"] ++
        nameTokens item.name item.id ++
        gps ++ wps ++
        (if u.generics.where_predicates.isEmpty then [spT] else []) ++
        [obT] ++ body ++ [cbT])
  | .Struct s => do
      let a ← with_attrs item.attrs
      let gps ← withList with_generic_param_def [Token.Ponct "<"] [Token.Ponct ">"]
        [Token.Ponct ",", spT] s.generics.params
      let wps ← withList with_where_predicate
        [nlT, Token.Kw "where", nlT, tabT] [Token.Ponct ",", nlT]
        [Token.Ponct ",", nlT, tabT] s.generics.where_predicates
      let pre := a ++ with_visibility item.visibility ++ [Token.Kw "struct"] ++
        nameTokens item.name item.id ++
        gps ++ wps
      match s.kind with
      | .Plain fields fields_stripped => do
          let items ← resolveStructFields idx fields
          let body ← plainBody items fields_stripped
          pure (pre ++
            (if s.generics.where_predicates.isEmpty then [spT] else []) ++
            [obT] ++ body ++ [cbT])
      | .Tuple fields => do
          let items ← resolveOptStructFields idx fields
          let rs ← ppMapM
            (fun oit => match oit with
              | some (it, ty) => do
                  let t ← with_type ty
                  pure (with_visibility it.visibility ++ t)
              | none => pure [Token.Ponct "_"])
            items
          pure (pre ++ [Token.Ponct "("] ++
            joinBetween [Token.Ponct ",", spT] rs ++
            [Token.Ponct ")", Token.Ponct ";"])
      | .Unit => pure (pre ++ [Token.Ponct ";"])
  | .StructField ty => with_struct_field item ty
  | .Enum e => do
      let a ← with_attrs item.attrs
      let gps ← withList with_generic_param_def [Token.Ponct "<"] [Token.Ponct ">"]
        [Token.Ponct ",", spT] e.generics.params
      let wps ← withList with_where_predicate
        [nlT, Token.Kw "where", nlT, tabT] [Token.Ponct ","]
        [Token.Ponct ",", nlT, tabT] e.generics.where_predicates
      let items ← resolveVariants idx e.variants
      let body ← enumBody idx items e.variants_stripped
      pure (a ++ with_visibility item.visibility ++ [Token.Kw "enum"] ++
        nameTokens item.name item.id ++
        gps ++ wps ++ [spT, obT] ++ body ++ [cbT])
  | .Variant v => with_enum_variant idx item v
  | .Function f => with_function item f false
  | .Trait t => do
      let a ← with_attrs item.attrs
      let gps ← withList with_generic_param_def [Token.Ponct "<"] [Token.Ponct ">"]
        [Token.Ponct ",", spT] t.generics.params
      let bds ← withList with_generic_bound [Token.Ponct ":", spT] []
        [spT, Token.Ponct "+", spT] t.bounds
      let wps ← withList with_where_predicate
        [nlT, Token.Kw "where", nlT, tabT] [Token.Ponct ",", nlT]
        [Token.Ponct ",", nlT, tabT] t.generics.where_predicates
      let rs ← ppMapM (resolveTraitMember idx) t.items
      pure (a ++ with_visibility item.visibility ++
        (if t.isUnsafe then [Token.Kw "unsafe", spT] else []) ++
        (if t.isAuto then [Token.Kw "auto", spT] else []) ++
        [Token.Kw "trait"] ++
        nameTokens item.name item.id ++
        gps ++ bds ++ wps ++
        (if t.generics.where_predicates.isEmpty then [spT] else []) ++
        [obT] ++ tabulate true (traitItemsBlock rs) ++ [cbT])
  | .TraitAlias ta => do
      let a ← with_attrs item.attrs
      let gps ← withList with_generic_param_def [Token.Ponct "<"] [Token.Ponct ">"]
        [Token.Ponct ",", spT] ta.generics.params
      let bds ← withList with_generic_bound [] [] [spT, Token.Ponct "+", spT]
        ta.params
      let wps ← withList with_where_predicate
        [nlT, Token.Kw "where", nlT, tabT] [] [Token.Ponct ",", nlT, tabT]
        ta.generics.where_predicates
      pure (a ++ with_visibility item.visibility ++ [Token.Kw "trait"] ++
        nameTokens item.name item.id ++
        gps ++ [spT, Token.Ponct "=", spT] ++ bds ++ wps ++ [Token.Ponct ";"])
  | .Impl i => do
      let a ← with_attrs item.attrs
      let gps ← withList with_generic_param_def [Token.Ponct "<"] [Token.Ponct ">"]
        [Token.Ponct ",", spT] i.generics.params
      let trTs ← match i.trait_ with
        | some tr => do
            let pt ← with_path tr
            pure ((if i.negative then [Token.Ponct "!"] else []) ++ pt ++
              [spT, Token.Kw "for", spT])
        | none => pure []
      let forTs ← match i.blanket_impl with
        | some b => with_type b
        | none => with_type i.for_
      let wps ← withList with_where_predicate
        [nlT, Token.Kw "where", nlT, tabT] [Token.Ponct ","]
        [Token.Ponct ",", nlT, tabT] i.generics.where_predicates
      pure (a ++ (if i.isUnsafe then [Token.Kw "unsafe", spT] else []) ++
        [Token.Kw "impl"] ++ gps ++ [spT] ++ trTs ++ forTs ++ wps)
  | .TypeAlias ta => do
      let a ← with_attrs item.attrs
      let n ← unwrapName item
      let gps ← withList with_generic_param_def [Token.Ponct "<"] [Token.Ponct ">"]
        [Token.Ponct ",", spT] ta.generics.params
      let tt ← with_type ta.type_
      let wps ← withList with_where_predicate
        [nlT, Token.Kw "where", nlT, tabT] [Token.Ponct ","]
        [Token.Ponct ",", nlT, spT] ta.generics.where_predicates
      pure (a ++ with_visibility item.visibility ++
        [Token.Kw "type", spT, Token.Ident n (some item.id)] ++ gps ++
        [spT, Token.Ponct "=", spT] ++ tt ++ wps ++ [Token.Ponct ";"])
  | .OpaqueTy => panicPP "not implemented: ItemEnum::OpaqueTy"
  | .Constant type_ const_ => do
      let a ← with_attrs item.attrs
      let n ← unwrapName item
      let tt ← with_type type_
      pure (a ++ with_visibility item.visibility ++
        [Token.Kw "const", spT, Token.Ident n (some item.id), Token.Ponct ":", spT] ++
        tt ++
        [spT, Token.Ponct "=", spT, Token.Ident const_.expr none, Token.Ponct ";"])
  | .Static st => do
      let a ← with_attrs item.attrs
      let n ← unwrapName item
      let tt ← with_type st.type_
      pure (a ++ with_visibility item.visibility ++
        [Token.Kw "static", spT, Token.Kw (if st.mutable then "mut" else "const"),
         spT, Token.Ident n (some item.id), Token.Ponct ":", spT] ++
        tt ++
        [spT, Token.Ponct "=", spT, Token.Ident st.expr none, Token.Ponct ";"])
  | .ForeignType => panicPP "not implemented: ItemEnum::ForeignType"
  | .Macro body => do
      let a ← with_attrs item.attrs
      pure (a ++ [Token.Ident body none])
  | .ProcMacro p => do
      match p.kind with
      | .Bang => do
          let n ← unwrapName item
          pure [Token.Ident n (some item.id), Token.Ponct "!", Token.Ponct "(",
            Token.Ponct ")"]
      | .Attr => do
          let n ← unwrapName item
          pure [Token.Ponct "#", Token.Ponct "[", Token.Ident n (some item.id),
            Token.Ponct "]"]
      | .Derive => do
          let n ← unwrapName item
          pure [Token.Ponct "#", Token.Ponct "[", Token.Ident "derive" none,
            Token.Ponct "(", Token.Ident n (some item.id), Token.Ponct ")",
            Token.Ponct "]"]
  | .AssocConst type_ default => with_assoc_const item type_ default true
  | .AssocType generics bounds default => with_assoc_type item bounds default generics true
  | .Primitive _ => panicPP "not implemented: ItemEnum::Primitive"

/-- A token that is neither of the two body/field placeholder layout tokens
(`Hidden` and `Ignored`). -/
def cleanTok : Token → Bool
  | .Special (.Hidden _) => false
  | .Special .Ignored => false
  | _ => true

/-- All tokens of a list are placeholder-free. -/
def CleanL (ts : List Token) : Prop :=
  ∀ t ∈ ts, cleanTok t = true

/-- All token lists of a list of rendered children are placeholder-free. -/
def CleanLL (rss : List (List Token)) : Prop :=
  ∀ ts ∈ rss, CleanL ts

/-- A printing result that yields only placeholder-free tokens when it
succeeds. -/
def CleanRes (r : PP (List Token)) : Prop :=
  ∀ ts, r = .ok ts → CleanL ts

/-- A printing result that can only fail by panicking, never with a
`FromItemErrorKind` error, and yields only placeholder-free tokens when it
succeeds. -/
def GoodRes (r : PP (List Token)) : Prop :=
  CleanRes r ∧ ∀ e, r ≠ .error (.err e)

/-- Variant of `CleanRes` for child-list renderers. -/
def CleanResL (r : PP (List (List Token))) : Prop :=
  ∀ rss, r = .ok rss → CleanLL rss

/-- Variant of `GoodRes` for child-list renderers. -/
def GoodResL (r : PP (List (List Token))) : Prop :=
  CleanResL r ∧ ∀ e, r ≠ .error (.err e)

/-- The pending-tabulation flag of the decorator after a sequence of pushes,
starting from flag `b`. -/
def endFlag : Bool → List Token → Bool
  | b, [] => b
  | _, t :: ts => endFlag (isNewLineT t) ts

/-- The specification the claim about the tabulation decorator asserts: a
`Tabulation` inserted immediately after every `NewLine` and nowhere else. -/
def tabAfterNewLineSpec : List Token → List Token
  | [] => []
  | t :: ts =>
      if isNewLineT t then t :: tabT :: tabAfterNewLineSpec ts
      else t :: tabAfterNewLineSpec ts

/-- What the decorator actually forwards after its first push: each token,
with a `Tabulation` inserted after a `NewLine` only when another token
follows. -/
def tabBody : List Token → List Token
  | [] => []
  | t :: ts =>
      t :: (if isNewLineT t ∧ ts ≠ [] then tabT :: tabBody ts else tabBody ts)

/-- The actual input/output relation of the decorator: a `Tabulation` before the
first forwarded token (the flag starts `true`), then a `Tabulation` after
each `NewLine` that is followed by another token, and nowhere else. -/
def tabPusherSpec (ts : List Token) : List Token :=
  if ts = [] then [] else tabT :: tabBody ts

/-- Does a printing result avoid the two index-lookup error kinds
(`ChildrenNotFound`, `UnexpectedItemType`)? -/
def noChildErr : PP (List Token) → Bool
  | .error (.err (.ChildrenNotFound _)) => false
  | .error (.err (.UnexpectedItemType _ _)) => false
  | _ => true

/-- Fixture: a public `u8` struct field named `x`. -/
def sampleFieldItem : Item :=
  ⟨"f0", some "x", .Public, [], .StructField (.Primitive "u8")⟩

/-- Fixture index holding the sample field. -/
def sampleIdx : Index := [("f0", sampleFieldItem)]

/-- Fixture: `pub struct S` with one visible field and `fields_stripped`. -/
def sampleStructItem : Item :=
  ⟨"s0", some "S", .Public, [], .Struct ⟨.Plain ["f0"] true, ⟨[], []⟩⟩⟩

/-- Fixture: a compiler-synthesized `impl Trait` type parameter. -/
def implParam : GenericParamDef :=
  ⟨"impl Trait", .TypeParam [] none true⟩

/-- Fixture: an ordinary (non-synthetic) type parameter `T`. -/
def tParam : GenericParamDef :=
  ⟨"T", .TypeParam [] none false⟩

/-- Fixture: a no-body zero-parameter function `fn foo();`. -/
def sampleFnNoBody : Item :=
  ⟨"fn0", some "foo", .Default, [],
   .Function ⟨.mk [] none false, ⟨[], []⟩, ⟨false, false, false, .Rust⟩, false⟩⟩

/-- Fixture: the payload of a three-parameter function. -/
def sampleFn3Fn : FunctionTy :=
  ⟨.mk [("a", .Primitive "u8"), ("b", .Primitive "u8"),
      ("c", .Primitive "u8")] none false, ⟨[], []⟩,
   ⟨false, false, false, .Rust⟩, false⟩

/-- Fixture: a three-parameter function item. -/
def sampleFn3 : Item :=
  ⟨"fn3", some "bar", .Default, [], .Function sampleFn3Fn⟩

/-- Fixture: a plain enum variant `V`. -/
def sampleVariantItem : Item :=
  ⟨"v0", some "V", .Default, [], .Variant ⟨.Plain, none⟩⟩

/-- Fixture index holding the sample variant. -/
def sampleEnumIdx : Index := [("v0", sampleVariantItem)]

/-- Fixture: `pub enum E` with one visible variant and `variants_stripped`. -/
def sampleEnumItem : Item :=
  ⟨"e0", some "E", .Public, [], .Enum ⟨⟨[], []⟩, true, ["v0"]⟩⟩

/-- Fixture: a struct-form enum variant `W` with `fields_stripped` set and no
visible field. -/
def strippedStructVariantItem : Item :=
  ⟨"v1", some "W", .Default, [], .Variant ⟨.Struct [] true, none⟩⟩

/-- Fixture: a constant item carrying the malformed one-byte raw attribute
string `#`. -/
def malformedAttrConstItem : Item :=
  ⟨"c0", some "C", .Public, ["#"], .Constant (.Primitive "u8") ⟨"0", none⟩⟩

@[simp] theorem cleanTok_Ident (s : String) (i : Option Id) :
    cleanTok (.Ident s i) = true := rfl

@[simp] theorem cleanTok_Kw (s : String) : cleanTok (.Kw s) = true := rfl

@[simp] theorem cleanTok_Ponct (s : String) : cleanTok (.Ponct s) = true := rfl

@[simp] theorem cleanTok_Attr (s : String) : cleanTok (.Attr s) = true := rfl

@[simp] theorem cleanTok_Primitive (s : String) : cleanTok (.Primitive s) = true := rfl

@[simp] theorem cleanTok_spT : cleanTok spT = true := rfl

@[simp] theorem cleanTok_nlT : cleanTok nlT = true := rfl

@[simp] theorem cleanTok_tabT : cleanTok tabT = true := rfl

@[simp] theorem cleanTok_obT : cleanTok obT = true := rfl

@[simp] theorem cleanTok_cbT : cleanTok cbT = true := rfl

theorem cleanL_nil : CleanL [] := by
  intro t ht
  cases ht

theorem cleanL_append {xs ys : List Token} (hx : CleanL xs) (hy : CleanL ys) :
    CleanL (xs ++ ys) := by
  intro t ht
  rcases List.mem_append.1 ht with h | h
  · exact hx t h
  · exact hy t h

theorem cleanL_cons {t : Token} {ts : List Token} (h : cleanTok t = true)
    (hts : CleanL ts) : CleanL (t :: ts) := by
  intro u hu
  rcases List.mem_cons.1 hu with rfl | hu
  · exact h
  · exact hts u hu

theorem cleanL_joinBetween {btw : List Token} (hb : CleanL btw) :
    ∀ {rss : List (List Token)}, CleanLL rss → CleanL (joinBetween btw rss) := by
  intro rss
  induction rss with
  | nil => intro _; exact cleanL_nil
  | cons r rs ih =>
      intro h
      cases rs with
      | nil =>
          simpa [joinBetween] using h r (by simp)
      | cons r2 rs2 =>
          rw [joinBetween]
          exact cleanL_append (cleanL_append (h r (by simp)) hb)
            (ih (fun ts hts => h ts (by simp [hts])))

theorem cleanL_withRendered {b a btw : List Token} (hb : CleanL b) (ha : CleanL a)
    (hw : CleanL btw) {rss : List (List Token)} (h : CleanLL rss) :
    CleanL (withRendered b a btw rss) := by
  rw [withRendered]
  split
  · exact cleanL_nil
  · exact cleanL_append (cleanL_append hb (cleanL_joinBetween hw h)) ha

theorem cleanL_tabulate {ts : List Token} (h : CleanL ts) :
    ∀ b, CleanL (tabulate b ts) := by
  induction ts with
  | nil => intro b; rw [tabulate]; exact cleanL_nil
  | cons t ts ih =>
      intro b
      rw [tabulate]
      refine cleanL_append ?_ (cleanL_cons (h t (by simp)) (ih (fun u hu => h u (by simp [hu])) _))
      intro u hu
      rcases b with _ | _
      · cases hu
      · simp at hu
        simp [hu]

theorem cleanL_not_mem_hidden {ts : List Token} (h : CleanL ts) (b : Bool) :
    Token.Special (.Hidden b) ∉ ts := by
  intro hm
  have := h _ hm
  simp [cleanTok] at this

theorem cleanL_not_mem_ignored {ts : List Token} (h : CleanL ts) :
    Token.Special .Ignored ∉ ts := by
  intro hm
  have := h _ hm
  simp [cleanTok] at this

theorem clean_bind {α β : Type} {x : PP α} {f : α → PP β} {P : α → Prop}
    {Q : PP β → Prop}
    (hok : ∀ v, x = .ok v → P v)
    (herrQ : ∀ o, Q (.error o))
    (hf : ∀ v, P v → Q (f v)) : Q (x >>= f) := by
  cases x with
  | ok v => exact hf v (hok v rfl)
  | error o => exact herrQ o

theorem good_bind {α β : Type} {x : PP α} {f : α → PP β} {P : α → Prop}
    {Q : PP β → Prop}
    (hok : ∀ v, x = .ok v → P v)
    (herr : ∀ e, x ≠ .error (.err e))
    (hpanic : ∀ m, Q (.error (.panicked m)))
    (hf : ∀ v, P v → Q (f v)) : Q (x >>= f) := by
  cases x with
  | ok v => exact hf v (hok v rfl)
  | error o =>
      cases o with
      | err e => exact absurd rfl (herr e)
      | panicked m => exact hpanic m

theorem goodRes_pure {ts : List Token} (h : CleanL ts) : GoodRes (pure ts) := by
  constructor
  · intro us hu
    cases hu
    exact h
  · intro e he
    cases he

theorem goodRes_panic (msg : String) : GoodRes (panicPP msg) := by
  constructor
  · intro us hu
    cases hu
  · intro e he
    simp [panicPP] at he

theorem goodRes_error_panicked (m : String) :
    GoodRes (Except.error (Outcome.panicked m)) := goodRes_panic m

theorem goodResL_pure {rss : List (List Token)} (h : CleanLL rss) :
    GoodResL (pure rss) := by
  constructor
  · intro us hu
    cases hu
    exact h
  · intro e he
    cases he

theorem goodResL_error_panicked (m : String) :
    GoodResL (Except.error (Outcome.panicked m)) := by
  constructor
  · intro us hu
    cases hu
  · intro e he
    simp at he

@[simp] theorem pp_bind_ok {α β : Type} (a : α) (f : α → PP β) :
    (Except.ok a : PP α) >>= f = f a := rfl

@[simp] theorem pp_bind_error {α β : Type} (o : Outcome) (f : α → PP β) :
    (Except.error o : PP α) >>= f = .error o := rfl

@[simp] theorem pp_pure_bind {α β : Type} (a : α) (f : α → PP β) :
    (pure a : PP α) >>= f = f a := rfl

@[simp] theorem cleanL_nil_simp : CleanL [] := cleanL_nil

@[simp] theorem cleanL_cons_iff {t : Token} {ts : List Token} :
    CleanL (t :: ts) ↔ cleanTok t = true ∧ CleanL ts := by
  simp [CleanL]

@[simp] theorem cleanL_append_iff {xs ys : List Token} :
    CleanL (xs ++ ys) ↔ CleanL xs ∧ CleanL ys := by
  simp only [CleanL, List.mem_append]
  constructor
  · intro h
    exact ⟨fun t ht => h t (Or.inl ht), fun t ht => h t (Or.inr ht)⟩
  · rintro ⟨h1, h2⟩ t (ht | ht)
    · exact h1 t ht
    · exact h2 t ht

@[simp] theorem cleanLL_nil_simp : CleanLL [] := by
  intro ts ht
  cases ht

@[simp] theorem cleanLL_cons_iff {ts : List Token} {rss : List (List Token)} :
    CleanLL (ts :: rss) ↔ CleanL ts ∧ CleanLL rss := by
  simp [CleanLL]

theorem cleanLL_take {rss : List (List Token)} (h : CleanLL rss) (n : Nat) :
    CleanLL (rss.take n) :=
  fun ts hts => h ts (List.take_subset n rss hts)

theorem cleanLL_drop {rss : List (List Token)} (h : CleanLL rss) (n : Nat) :
    CleanLL (rss.drop n) :=
  fun ts hts => h ts (List.drop_subset n rss hts)

theorem cleanL_with_abi (abi : Abi) : CleanL (with_abi abi) := by
  rw [with_abi.eq_def]
  split
  · exact cleanL_nil
  · simp

theorem cleanL_with_header (h : Header) : CleanL (with_header h) := by
  rw [with_header]
  refine cleanL_append (cleanL_append (cleanL_append ?_ ?_) ?_)
    (cleanL_with_abi _) <;> split <;> simp

theorem cleanL_with_visibility (v : Visibility) : CleanL (with_visibility v) := by
  cases v <;> simp [with_visibility]

theorem ppMapM_ok_length {α β : Type} {f : α → PP β} :
    ∀ {xs : List α} {rs : List β}, ppMapM f xs = .ok rs → rs.length = xs.length := by
  intro xs
  induction xs with
  | nil =>
      intro rs h
      rw [ppMapM] at h
      cases h
      rfl
  | cons x xs ih =>
      intro rs h
      rw [ppMapM] at h
      cases hx : f x with
      | error o => simp [hx] at h
      | ok r =>
          simp only [hx, pp_bind_ok] at h
          cases hxs : ppMapM f xs with
          | error o => simp [hxs] at h
          | ok rs2 =>
              simp only [hxs, pp_bind_ok] at h
              cases h
              simp [ih hxs]

theorem ppMapM_ok_get {α β : Type} {f : α → PP β} :
    ∀ {xs : List α} {rs : List β}, ppMapM f xs = .ok rs →
      ∀ i (h1 : i < xs.length) (h2 : i < rs.length),
        f (xs.get ⟨i, h1⟩) = .ok (rs.get ⟨i, h2⟩) := by
  intro xs
  induction xs with
  | nil =>
      intro rs h i h1 h2
      exact absurd h1 (by simp)
  | cons x xs ih =>
      intro rs h i h1 h2
      rw [ppMapM] at h
      cases hx : f x with
      | error o => simp [hx] at h
      | ok r =>
          simp only [hx, pp_bind_ok] at h
          cases hxs : ppMapM f xs with
          | error o => simp [hxs] at h
          | ok rs2 =>
              simp only [hxs, pp_bind_ok] at h
              cases h
              cases i with
              | zero => exact hx
              | succ j =>
                  exact ih hxs j (Nat.lt_of_succ_lt_succ h1)
                    (Nat.lt_of_succ_lt_succ h2)

theorem ppMapM_ok_nil_iff {α β : Type} {f : α → PP β} {xs : List α}
    {rs : List β} (h : ppMapM f xs = .ok rs) : rs = [] ↔ xs = [] := by
  have := ppMapM_ok_length h
  constructor
  · intro hr
    subst hr
    exact List.length_eq_zero.1 this.symm
  · intro hx
    subst hx
    exact List.length_eq_zero.1 this

theorem goodL_ppMapM {α : Type} {f : α → PP (List Token)} :
    ∀ {xs : List α}, (∀ x ∈ xs, GoodRes (f x)) → GoodResL (ppMapM f xs) := by
  intro xs
  induction xs with
  | nil =>
      intro _
      rw [ppMapM]
      exact goodResL_pure cleanLL_nil_simp
  | cons x xs ih =>
      intro h
      rw [ppMapM]
      refine good_bind (h x (by simp)).1 (h x (by simp)).2 goodResL_error_panicked ?_
      intro r hr
      refine good_bind (ih (fun y hy => h y (by simp [hy]))).1
        (ih (fun y hy => h y (by simp [hy]))).2 goodResL_error_panicked ?_
      intro rs hrs
      exact goodResL_pure (by simp [hr, hrs])

theorem cleanL_ppMapM {α : Type} {f : α → PP (List Token)} :
    ∀ {xs : List α}, (∀ x ∈ xs, CleanRes (f x)) → CleanResL (ppMapM f xs) := by
  intro xs
  induction xs with
  | nil =>
      intro _
      rw [ppMapM]
      intro rss h
      cases h
      exact cleanLL_nil_simp
  | cons x xs ih =>
      intro h
      rw [ppMapM]
      refine clean_bind (h x (by simp)) (fun o rss hr => by cases hr) ?_
      intro r hr
      refine clean_bind (ih (fun y hy => h y (by simp [hy]))) (fun o rss hr => by cases hr) ?_
      intro rs hrs
      intro rss hp
      cases hp
      simp [hr, hrs]

theorem good_withList {α : Type} {f : α → PP (List Token)}
    {b a w : List Token} (hb : CleanL b) (ha : CleanL a) (hw : CleanL w)
    {xs : List α} (h : ∀ x ∈ xs, GoodRes (f x)) :
    GoodRes (withList f b a w xs) := by
  rw [withList]
  refine good_bind (goodL_ppMapM h).1 (goodL_ppMapM h).2 goodRes_error_panicked ?_
  intro rs hrs
  exact goodRes_pure (cleanL_withRendered hb ha hw hrs)

mutual

theorem good_with_type : ∀ ty, GoodRes (with_type ty)
  | .ResolvedPath p => good_with_path p
  | .Generic g => by
      simp only [with_type]
      exact goodRes_pure (by simp)
  | .Primitive p => by
      simp only [with_type]
      split <;> exact goodRes_pure (by simp)
  | .FunctionPointer (.mk (.mk inputs (some o) cv) gparams header) => by
      simp only [with_type]
      refine good_bind (good_render_generic_param_defs gparams).1
        (good_render_generic_param_defs gparams).2 goodRes_error_panicked ?_
      intro gs hgs
      refine good_bind (good_render_fnptr_inputs inputs).1
        (good_render_fnptr_inputs inputs).2 goodRes_error_panicked ?_
      intro ins hins
      refine good_bind (good_with_type o).1 (good_with_type o).2
        goodRes_error_panicked ?_
      intro t ht
      refine goodRes_pure ?_
      refine cleanL_append (cleanL_append (cleanL_append (cleanL_append
        (cleanL_append (cleanL_append (cleanL_with_header header) (by simp))
          (cleanL_withRendered (by simp) (by simp) (by simp) hgs)) (by simp))
        (cleanL_withRendered (by simp) (by simp) (by simp) hins)) (by simp))
        (by simp [ht])
  | .FunctionPointer (.mk (.mk inputs none cv) gparams header) => by
      simp only [with_type]
      refine good_bind (good_render_generic_param_defs gparams).1
        (good_render_generic_param_defs gparams).2 goodRes_error_panicked ?_
      intro gs hgs
      refine good_bind (good_render_fnptr_inputs inputs).1
        (good_render_fnptr_inputs inputs).2 goodRes_error_panicked ?_
      intro ins hins
      refine goodRes_pure ?_
      refine cleanL_append (cleanL_append (cleanL_append (cleanL_append
        (cleanL_append (cleanL_append (cleanL_with_header header) (by simp))
          (cleanL_withRendered (by simp) (by simp) (by simp) hgs)) (by simp))
        (cleanL_withRendered (by simp) (by simp) (by simp) hins)) (by simp))
        cleanL_nil
  | .Tuple types => by
      simp only [with_type]
      refine good_bind (good_render_types types).1 (good_render_types types).2
        goodRes_error_panicked ?_
      intro rs hrs
      exact goodRes_pure (cleanL_append (cleanL_append (by simp)
        (cleanL_withRendered (by simp) (by simp) (by simp) hrs)) (by simp))
  | .Slice t => by
      simp only [with_type]
      refine good_bind (good_with_type t).1 (good_with_type t).2
        goodRes_error_panicked ?_
      intro ts hts
      exact goodRes_pure (by simp [hts])
  | .Array t len => by
      simp only [with_type]
      refine good_bind (good_with_type t).1 (good_with_type t).2
        goodRes_error_panicked ?_
      intro ts hts
      exact goodRes_pure (by simp [hts])
  | .ImplTrait bounds => by
      simp only [with_type]
      refine good_bind (good_render_generic_bounds bounds).1
        (good_render_generic_bounds bounds).2 goodRes_error_panicked ?_
      intro rs hrs
      exact goodRes_pure (cleanL_withRendered (by simp) (by simp) (by simp) hrs)
  | .Infer => by
      simp only [with_type]
      exact goodRes_pure (by simp)
  | .RawPointer mutable t => by
      simp only [with_type]
      refine good_bind (good_with_type t).1 (good_with_type t).2
        goodRes_error_panicked ?_
      intro ts hts
      exact goodRes_pure (by simp [hts])
  | .DynTrait (.mk traits lifetime) => by
      simp only [with_type]
      refine good_bind (good_render_poly_traits traits).1
        (good_render_poly_traits traits).2 goodRes_error_panicked ?_
      intro rs hrs
      refine goodRes_pure ?_
      refine cleanL_append (cleanL_append (by simp)
        (cleanL_withRendered (by simp) (by simp) (by simp) hrs)) ?_
      cases lifetime <;> simp
  | .BorrowedRef lifetime mutable t => by
      simp only [with_type]
      refine good_bind (good_with_type t).1 (good_with_type t).2
        goodRes_error_panicked ?_
      intro ts hts
      refine goodRes_pure ?_
      refine cleanL_append (cleanL_append (cleanL_append (by simp) ?_) ?_) hts
      · cases lifetime <;> simp
      · split <;> simp
  | .QualifiedPath name self_type (some path) args => by
      simp only [with_type]
      refine good_bind (good_with_type self_type).1
        (good_with_type self_type).2 goodRes_error_panicked ?_
      intro st hst
      refine good_bind (good_with_path path).1 (good_with_path path).2
        goodRes_error_panicked ?_
      intro pt hpt
      refine good_bind (good_with_generic_args args).1
        (good_with_generic_args args).2 goodRes_error_panicked ?_
      intro ga hga
      exact goodRes_pure (by simp [hst, hpt, hga])
  | .QualifiedPath name self_type none args => by
      simp only [with_type]
      refine good_bind (good_with_type self_type).1
        (good_with_type self_type).2 goodRes_error_panicked ?_
      intro st hst
      refine good_bind (good_with_generic_args args).1
        (good_with_generic_args args).2 goodRes_error_panicked ?_
      intro ga hga
      exact goodRes_pure (by simp [hst, hga])
  | .Pat => by
      simp only [with_type]
      exact goodRes_panic _

theorem good_with_path : ∀ p, GoodRes (with_path p)
  | .mk name id (some ga) => by
      simp only [with_path]
      refine good_bind (good_with_generic_args ga).1
        (good_with_generic_args ga).2 goodRes_error_panicked ?_
      intro g hg
      exact goodRes_pure (by simp [hg])
  | .mk name id none => by
      simp only [with_path]
      exact goodRes_pure (by simp)

theorem good_with_generic_args : ∀ ga, GoodRes (with_generic_args ga)
  | .AngleBracketed args bindings => by
      simp only [with_generic_args]
      split
      · exact goodRes_pure cleanL_nil
      · refine good_bind (good_render_generic_args args).1
          (good_render_generic_args args).2 goodRes_error_panicked ?_
        intro ra hra
        refine good_bind (good_render_type_bindings bindings).1
          (good_render_type_bindings bindings).2 goodRes_error_panicked ?_
        intro rb hrb
        refine goodRes_pure ?_
        refine cleanL_append (cleanL_append (cleanL_append (by simp)
          (cleanL_withRendered (by simp) (by simp) (by simp) hra))
          (cleanL_withRendered ?_ (by simp) (by simp) hrb)) (by simp)
        split <;> simp
  | .Parenthesized inputs (some o) => by
      simp only [with_generic_args]
      refine good_bind (good_render_types inputs).1 (good_render_types inputs).2
        goodRes_error_panicked ?_
      intro rs hrs
      refine good_bind (good_with_type o).1 (good_with_type o).2
        goodRes_error_panicked ?_
      intro t ht
      exact goodRes_pure (cleanL_append
        (cleanL_withRendered (by simp) (by simp) (by simp) hrs) (by simp [ht]))
  | .Parenthesized inputs none => by
      simp only [with_generic_args]
      refine good_bind (good_render_types inputs).1 (good_render_types inputs).2
        goodRes_error_panicked ?_
      intro rs hrs
      exact goodRes_pure (cleanL_append
        (cleanL_withRendered (by simp) (by simp) (by simp) hrs) cleanL_nil)

theorem good_with_generic_arg : ∀ a, GoodRes (with_generic_arg a)
  | .Lifetime s => by
      simp only [with_generic_arg]
      exact goodRes_pure (by simp)
  | .TypeArg t => good_with_type t
  | .Infer => by
      simp only [with_generic_arg]
      exact goodRes_pure (by simp)
  | .Const c => by
      simp only [with_generic_arg]
      refine goodRes_pure (cleanL_append (by simp) ?_)
      cases c.value <;> simp

theorem good_with_type_binding : ∀ b, GoodRes (with_type_binding b)
  | .mk name (.Equality (.TypeTerm t)) => by
      simp only [with_type_binding]
      refine good_bind (good_with_type t).1 (good_with_type t).2
        goodRes_error_panicked ?_
      intro tt htt
      exact goodRes_pure (by simp [htt])
  | .mk name (.Equality (.ConstantTerm c)) => by
      simp only [with_type_binding]
      refine good_bind (goodRes_panic "un-handle constant").1
        (goodRes_panic "un-handle constant").2 goodRes_error_panicked ?_
      intro tt htt
      exact goodRes_pure (by simp [htt])
  | .mk name (.Constraint bounds) => by
      simp only [with_type_binding]
      refine good_bind (good_render_generic_bounds bounds).1
        (good_render_generic_bounds bounds).2 goodRes_error_panicked ?_
      intro rs hrs
      exact goodRes_pure (cleanL_withRendered (by simp) (by simp) (by simp) hrs)

theorem good_with_generic_bound : ∀ b, GoodRes (with_generic_bound b)
  | .TraitBound trait_ gparams modifier => by
      simp only [with_generic_bound]
      refine good_bind (good_render_generic_param_defs gparams).1
        (good_render_generic_param_defs gparams).2 goodRes_error_panicked ?_
      intro rs hrs
      refine good_bind (good_with_path trait_).1 (good_with_path trait_).2
        goodRes_error_panicked ?_
      intro pt hpt
      refine goodRes_pure ?_
      refine cleanL_append (cleanL_append (cleanL_append ?_
        (cleanL_withRendered (by simp) (by simp) (by simp) (cleanLL_take hrs _)))
        hpt)
        (cleanL_withRendered (by simp) (by simp) (by simp) (cleanLL_drop hrs _))
      cases modifier <;> simp
  | .Outlives s => by
      simp only [with_generic_bound]
      exact goodRes_pure (by simp)

theorem good_with_generic_param_def : ∀ p, GoodRes (with_generic_param_def p)
  | .mk name (.Lifetime outlives) => by
      simp only [with_generic_param_def]
      refine goodRes_pure (cleanL_cons (by simp) ?_)
      refine cleanL_withRendered (by simp) (by simp) (by simp) ?_
      intro ts hts
      rcases List.mem_map.1 hts with ⟨o, _, rfl⟩
      simp
  | .mk name (.TypeParam bounds (some d) synthetic) => by
      simp only [with_generic_param_def]
      split
      · exact goodRes_pure cleanL_nil
      · refine good_bind (good_render_generic_bounds bounds).1
          (good_render_generic_bounds bounds).2 goodRes_error_panicked ?_
        intro rs hrs
        refine good_bind (good_with_type d).1 (good_with_type d).2
          goodRes_error_panicked ?_
        intro t ht
        exact goodRes_pure (cleanL_cons (by simp) (cleanL_append
          (cleanL_withRendered (by simp) (by simp) (by simp) hrs)
          (by simp [ht])))
  | .mk name (.TypeParam bounds none synthetic) => by
      simp only [with_generic_param_def]
      split
      · exact goodRes_pure cleanL_nil
      · refine good_bind (good_render_generic_bounds bounds).1
          (good_render_generic_bounds bounds).2 goodRes_error_panicked ?_
        intro rs hrs
        exact goodRes_pure (cleanL_cons (by simp) (cleanL_append
          (cleanL_withRendered (by simp) (by simp) (by simp) hrs)
          cleanL_nil))
  | .mk name (.ConstParam type_ default) => by
      simp only [with_generic_param_def]
      refine good_bind (good_with_type type_).1 (good_with_type type_).2
        goodRes_error_panicked ?_
      intro ts hts
      refine goodRes_pure (cleanL_append (cleanL_append (by simp) hts) ?_)
      cases default <;> simp

theorem good_with_poly_trait : ∀ p, GoodRes (with_poly_trait p)
  | .mk trait_ gparams => by
      simp only [with_poly_trait]
      refine good_bind (good_render_generic_param_defs gparams).1
        (good_render_generic_param_defs gparams).2 goodRes_error_panicked ?_
      intro rs hrs
      refine good_bind (good_with_path trait_).1 (good_with_path trait_).2
        goodRes_error_panicked ?_
      intro pt hpt
      exact goodRes_pure
        (cleanL_append (cleanL_withRendered (by simp) (by simp) (by simp) hrs) hpt)

theorem good_render_types : ∀ ts, GoodResL (render_types ts)
  | [] => by
      simp only [render_types]
      exact goodResL_pure cleanLL_nil_simp
  | t :: ts => by
      simp only [render_types]
      refine good_bind (good_with_type t).1 (good_with_type t).2
        goodResL_error_panicked ?_
      intro r hr
      refine good_bind (good_render_types ts).1 (good_render_types ts).2
        goodResL_error_panicked ?_
      intro rs hrs
      exact goodResL_pure (by simp [hr, hrs])

theorem good_render_generic_args : ∀ xs, GoodResL (render_generic_args xs)
  | [] => by
      simp only [render_generic_args]
      exact goodResL_pure cleanLL_nil_simp
  | x :: xs => by
      simp only [render_generic_args]
      refine good_bind (good_with_generic_arg x).1 (good_with_generic_arg x).2
        goodResL_error_panicked ?_
      intro r hr
      refine good_bind (good_render_generic_args xs).1
        (good_render_generic_args xs).2 goodResL_error_panicked ?_
      intro rs hrs
      exact goodResL_pure (by simp [hr, hrs])

theorem good_render_type_bindings : ∀ xs, GoodResL (render_type_bindings xs)
  | [] => by
      simp only [render_type_bindings]
      exact goodResL_pure cleanLL_nil_simp
  | x :: xs => by
      simp only [render_type_bindings]
      refine good_bind (good_with_type_binding x).1 (good_with_type_binding x).2
        goodResL_error_panicked ?_
      intro r hr
      refine good_bind (good_render_type_bindings xs).1
        (good_render_type_bindings xs).2 goodResL_error_panicked ?_
      intro rs hrs
      exact goodResL_pure (by simp [hr, hrs])

theorem good_render_generic_bounds : ∀ xs, GoodResL (render_generic_bounds xs)
  | [] => by
      simp only [render_generic_bounds]
      exact goodResL_pure cleanLL_nil_simp
  | x :: xs => by
      simp only [render_generic_bounds]
      refine good_bind (good_with_generic_bound x).1 (good_with_generic_bound x).2
        goodResL_error_panicked ?_
      intro r hr
      refine good_bind (good_render_generic_bounds xs).1
        (good_render_generic_bounds xs).2 goodResL_error_panicked ?_
      intro rs hrs
      exact goodResL_pure (by simp [hr, hrs])

theorem good_render_generic_param_defs :
    ∀ xs, GoodResL (render_generic_param_defs xs)
  | [] => by
      simp only [render_generic_param_defs]
      exact goodResL_pure cleanLL_nil_simp
  | x :: xs => by
      simp only [render_generic_param_defs]
      refine good_bind (good_with_generic_param_def x).1
        (good_with_generic_param_def x).2 goodResL_error_panicked ?_
      intro r hr
      refine good_bind (good_render_generic_param_defs xs).1
        (good_render_generic_param_defs xs).2 goodResL_error_panicked ?_
      intro rs hrs
      exact goodResL_pure (by simp [hr, hrs])

theorem good_render_poly_traits : ∀ xs, GoodResL (render_poly_traits xs)
  | [] => by
      simp only [render_poly_traits]
      exact goodResL_pure cleanLL_nil_simp
  | x :: xs => by
      simp only [render_poly_traits]
      refine good_bind (good_with_poly_trait x).1 (good_with_poly_trait x).2
        goodResL_error_panicked ?_
      intro r hr
      refine good_bind (good_render_poly_traits xs).1
        (good_render_poly_traits xs).2 goodResL_error_panicked ?_
      intro rs hrs
      exact goodResL_pure (by simp [hr, hrs])

theorem good_render_fnptr_inputs : ∀ xs, GoodResL (render_fnptr_inputs xs)
  | [] => by
      simp only [render_fnptr_inputs]
      exact goodResL_pure cleanLL_nil_simp
  | (nm, t) :: xs => by
      simp only [render_fnptr_inputs]
      refine good_bind (good_with_type t).1 (good_with_type t).2
        goodResL_error_panicked ?_
      intro r hr
      refine good_bind (good_render_fnptr_inputs xs).1
        (good_render_fnptr_inputs xs).2 goodResL_error_panicked ?_
      intro rs hrs
      exact goodResL_pure (by simp [hr, hrs])

end

theorem good_with_where_predicate : ∀ wp, GoodRes (with_where_predicate wp) := by
  intro wp
  cases wp with
  | BoundPredicate type_ bounds generic_params =>
      rw [with_where_predicate]
      refine good_bind (good_with_type type_).1 (good_with_type type_).2
        goodRes_error_panicked ?_
      intro tt htt
      have hgp : GoodRes (withList with_generic_param_def
          [spT, Token.Kw "for", Token.Ponct "<"] [Token.Ponct ">", spT]
          [Token.Ponct ",", spT] generic_params) :=
        good_withList (by simp) (by simp) (by simp)
          (fun x _ => good_with_generic_param_def x)
      refine good_bind hgp.1 hgp.2 goodRes_error_panicked ?_
      intro gp hgpc
      have hbs : GoodRes (withList with_generic_bound [] []
          [spT, Token.Ponct "+", spT] bounds) :=
        good_withList (by simp) (by simp) (by simp)
          (fun x _ => good_with_generic_bound x)
      refine good_bind hbs.1 hbs.2 goodRes_error_panicked ?_
      intro bs hbsc
      exact goodRes_pure (by simp [htt, hgpc, hbsc])
  | LifetimePredicate lifetime outlives =>
      rw [with_where_predicate]
      have hos : GoodRes (withList (fun o => pure [Token.Ident o none]) [] []
          [spT, Token.Ponct "+", spT] outlives) :=
        good_withList (by simp) (by simp) (by simp)
          (fun o _ => goodRes_pure (by simp))
      refine good_bind hos.1 hos.2 goodRes_error_panicked ?_
      intro os hosc
      exact goodRes_pure (by simp [hosc])
  | EqPredicate lhs rhs =>
      rw [with_where_predicate]
      refine good_bind (good_with_type lhs).1 (good_with_type lhs).2
        goodRes_error_panicked ?_
      intro lt hlt
      cases rhs with
      | TypeTerm ty =>
          refine good_bind (good_with_type ty).1 (good_with_type ty).2
            goodRes_error_panicked ?_
          intro rt hrt
          exact goodRes_pure (by simp [hlt, hrt])
      | ConstantTerm c =>
          refine good_bind (goodRes_panic "un-handle constant").1
            (goodRes_panic "un-handle constant").2 goodRes_error_panicked ?_
          intro rt hrt
          exact goodRes_pure (by simp [hlt, hrt])

theorem cleanRes_error {o : Outcome} : CleanRes (.error o) := by
  intro ts h
  cases h

theorem cleanResL_error {o : Outcome} : CleanResL (.error o) := by
  intro rss h
  cases h

theorem cleanRes_pure {ts : List Token} (h : CleanL ts) : CleanRes (pure ts) := by
  intro us hu
  cases hu
  exact h

theorem cleanRes_with_attrs_go : ∀ (xs : List String) (printed : Nat),
    CleanRes (with_attrs_go xs printed) := by
  intro xs
  induction xs with
  | nil =>
      intro printed ts h
      rw [with_attrs_go] at h
      cases h
      split <;> simp
  | cons attr rest ih =>
      intro printed ts h
      rw [with_attrs_go] at h
      cases ha : attr_name attr with
      | error o => simp [ha] at h
      | ok name =>
          simp only [ha, pp_bind_ok] at h
          split at h
          · cases hgo : with_attrs_go rest (printed + 1) with
            | error o => simp [hgo] at h
            | ok tl =>
                simp only [hgo, pp_bind_ok] at h
                cases h
                have htl := ih (printed + 1) tl hgo
                refine cleanL_append ?_ (cleanL_cons (by simp) htl)
                split <;> simp
          · exact ih printed ts h

theorem cleanRes_with_attrs (attrs : List String) : CleanRes (with_attrs attrs) :=
  cleanRes_with_attrs_go attrs 0

theorem cleanRes_with_struct_field (it : Item) (ty : RType) :
    CleanRes (with_struct_field it ty) := by
  rw [with_struct_field]
  refine clean_bind (cleanRes_with_attrs it.attrs) (fun o => cleanRes_error) ?_
  intro a ha
  refine clean_bind (good_with_type ty).1 (fun o => cleanRes_error) ?_
  intro t ht
  refine cleanRes_pure ?_
  refine cleanL_append (cleanL_append (cleanL_append ha
    (cleanL_with_visibility _)) ?_) ht
  cases it.name <;> simp

theorem cleanResL_struct_fields {items : List (Item × RType)} :
    CleanResL (ppMapM (fun p => with_struct_field p.1 p.2) items) :=
  cleanL_ppMapM (fun p _ => cleanRes_with_struct_field p.1 p.2)

theorem cleanRes_variantStructBody (items : List (Item × RType)) (st : Bool) :
    CleanRes (variantStructBody items st) := by
  rw [variantStructBody]
  split
  · refine clean_bind cleanResL_struct_fields (fun o => cleanRes_error) ?_
    intro rs hrs
    refine cleanRes_pure (cleanL_append (cleanL_joinBetween (by simp) hrs) ?_)
    split <;> simp
  · split
    · exact cleanRes_pure (by simp)
    · exact cleanRes_error

theorem cleanRes_with_enum_variant (idx : Index) (it : Item) (v : VariantTy) :
    CleanRes (with_enum_variant idx it v) := by
  rw [with_enum_variant]
  refine clean_bind (fun (n : String) _ => True.intro) (fun o => cleanRes_error) ?_
  intro n _
  cases hk : v.kind with
  | Plain =>
      refine cleanRes_pure (cleanL_cons (by simp) ?_)
      cases v.discriminant <;> simp
  | Tuple fields =>
      refine clean_bind (fun (items : List (Option RType)) _ => True.intro)
        (fun o => cleanRes_error) ?_
      intro items _
      have hts : GoodRes (withList with_opt_type [Token.Ponct "("]
          [Token.Ponct ")"] [Token.Ponct ",", spT] items) :=
        good_withList (by simp) (by simp) (by simp)
          (fun x _ => by
            cases x with
            | some t => exact good_with_type t
            | none => exact goodRes_pure (by simp [with_opt_type]))
      refine clean_bind hts.1 (fun o => cleanRes_error) ?_
      intro ts hts2
      exact cleanRes_pure (cleanL_cons (by simp) hts2)
  | Struct fields fields_stripped =>
      refine clean_bind (fun (items : List (Item × RType)) _ => True.intro)
        (fun o => cleanRes_error) ?_
      intro items _
      refine clean_bind (cleanRes_variantStructBody items fields_stripped)
        (fun o => cleanRes_error) ?_
      intro body hb
      exact cleanRes_pure (cleanL_cons (by simp) (cleanL_cons (by simp)
        (cleanL_cons (by simp) (cleanL_cons (by simp)
          (cleanL_append hb (by simp))))))

theorem endFlag_append (b : Bool) (xs ys : List Token) :
    endFlag b (xs ++ ys) = endFlag (endFlag b xs) ys := by
  induction xs generalizing b with
  | nil => simp [endFlag]
  | cons t ts ih => rw [List.cons_append, endFlag, endFlag, ih]

theorem tabulate_append (b : Bool) (xs ys : List Token) :
    tabulate b (xs ++ ys) = tabulate b xs ++ tabulate (endFlag b xs) ys := by
  induction xs generalizing b with
  | nil => simp [tabulate, endFlag]
  | cons t ts ih =>
      rw [List.cons_append, tabulate, tabulate, endFlag, ih]
      simp

theorem endFlag_linesBlock : ∀ (rs : List (List Token)), rs ≠ [] → ∀ b,
    endFlag b (linesBlock rs) = false := by
  intro rs
  induction rs with
  | nil => intro h; exact absurd rfl h
  | cons r rs ih =>
      intro _ b
      rw [linesBlock, endFlag_append]
      cases rs with
      | nil =>
          rw [linesBlock]
          rw [endFlag, endFlag_append]
          simp [endFlag, isNewLineT]
      | cons r2 rs2 => exact ih (by simp) _

theorem linesBlock_ne_nil {rs : List (List Token)} (h : rs ≠ []) :
    linesBlock rs ≠ [] := by
  cases rs with
  | nil => exact absurd rfl h
  | cons r rs => simp [linesBlock]

theorem cleanL_linesBlock {rs : List (List Token)} (h : CleanLL rs) :
    CleanL (linesBlock rs) := by
  induction rs with
  | nil => rw [linesBlock]; exact cleanL_nil
  | cons r rest ih =>
      rw [linesBlock]
      exact cleanL_append (cleanL_cons (by simp)
        (cleanL_append (h r (by simp)) (by simp)))
        (ih (fun ts hts => h ts (by simp [hts])))

theorem resolveStructFields_ok_length {idx : Index} :
    ∀ {fields : List Id} {l : List (Item × RType)},
      resolveStructFields idx fields = .ok l → l.length = fields.length := by
  intro fields
  induction fields with
  | nil =>
      intro l h
      rw [resolveStructFields] at h
      cases h
      rfl
  | cons id rest ih =>
      intro l h
      rw [resolveStructFields] at h
      split at h
      · simp [errPP] at h
      · split at h
        · cases hr : resolveStructFields idx rest with
          | error o => simp [hr] at h
          | ok tl =>
              simp only [hr, pp_bind_ok] at h
              cases h
              simp [ih hr]
        · simp [errPP] at h

theorem resolveStructFields_ok_get {idx : Index} :
    ∀ {fields : List Id} {l : List (Item × RType)},
      resolveStructFields idx fields = .ok l →
      ∀ i (h1 : i < fields.length) (h2 : i < l.length),
        Index.get idx (fields.get ⟨i, h1⟩) = some (l.get ⟨i, h2⟩).1 ∧
        (l.get ⟨i, h2⟩).1.inner = .StructField (l.get ⟨i, h2⟩).2 := by
  intro fields
  induction fields with
  | nil =>
      intro l h i h1 h2
      exact absurd h1 (by simp)
  | cons id rest ih =>
      intro l h i h1 h2
      rw [resolveStructFields] at h
      split at h
      · simp [errPP] at h
      · split at h
        · cases hr : resolveStructFields idx rest with
          | error o => simp [hr] at h
          | ok tl =>
              simp only [hr, pp_bind_ok] at h
              cases h
              cases i with
              | zero =>
                  constructor
                  · simpa using (by assumption : Index.get idx id = some _)
                  · simpa using (by assumption)
              | succ j =>
                  exact ih hr j (Nat.lt_of_succ_lt_succ h1)
                    (Nat.lt_of_succ_lt_succ h2)
        · simp [errPP] at h

theorem resolveVariants_ok_length {idx : Index} :
    ∀ {vs : List Id} {l : List (Item × VariantTy)},
      resolveVariants idx vs = .ok l → l.length = vs.length := by
  intro vs
  induction vs with
  | nil =>
      intro l h
      rw [resolveVariants] at h
      cases h
      rfl
  | cons id rest ih =>
      intro l h
      rw [resolveVariants] at h
      split at h
      · simp [errPP] at h
      · split at h
        · cases hr : resolveVariants idx rest with
          | error o => simp [hr] at h
          | ok tl =>
              simp only [hr, pp_bind_ok] at h
              cases h
              simp [ih hr]
        · simp [errPP] at h

theorem good_renderFnInput : ∀ p, GoodRes (renderFnInput p) := by
  intro p
  obtain ⟨name, ty⟩ := p
  rw [renderFnInput]
  refine good_bind (good_with_type ty).1 (good_with_type ty).2
    goodRes_error_panicked ?_
  intro t ht
  refine goodRes_pure (cleanL_append ?_ ht)
  split <;> simp

theorem good_fnInputs (decl : FnDecl) : GoodRes (fnInputs decl) := by
  rw [fnInputs]
  split <;>
    exact good_withList (by simp) (by simp) (by simp)
      (fun x _ => good_renderFnInput x)

theorem good_fnOutput (decl : FnDecl) : GoodRes (fnOutput decl) := by
  rw [fnOutput]
  cases hd : decl.output with
  | some o =>
      refine good_bind (good_with_type o).1 (good_with_type o).2
        goodRes_error_panicked ?_
      intro t ht
      exact goodRes_pure (by simp [ht])
  | none => exact goodRes_pure cleanL_nil

theorem dropWhile_append_all {α : Type} (p : α → Bool) :
    ∀ (xs ys : List α), (∀ x ∈ xs, p x = true) →
      List.dropWhile p (xs ++ ys) = List.dropWhile p ys := by
  intro xs ys
  induction xs with
  | nil => intro _; rfl
  | cons x xs ih =>
      intro h
      rw [List.cons_append, List.dropWhile_cons]
      simp only [h x (by simp), if_true]
      exact ih (fun y hy => h y (by simp [hy]))

theorem dropWhile_cons_false {α : Type} (p : α → Bool) (x : α) (xs : List α)
    (h : p x = false) : List.dropWhile p (x :: xs) = x :: xs := by
  rw [List.dropWhile_cons]
  simp [h]

theorem without_impl_spec (front tail : List GenericParamDef)
    (htail : ∀ p ∈ tail, isImplParam p = true)
    (hfront : ∀ h : front ≠ [], isImplParam (front.getLast h) = false) :
    without_impl (front ++ tail) = front := by
  rw [without_impl, List.reverse_append]
  rw [dropWhile_append_all _ _ _ (fun x hx => htail x (List.mem_reverse.1 hx))]
  by_cases hf : front = []
  · subst hf
    simp
  · have hrev : front.reverse = front.getLast hf :: front.dropLast.reverse := by
      conv_lhs => rw [← List.dropLast_append_getLast hf]
      rw [List.reverse_append]
      rfl
    rw [hrev, dropWhile_cons_false _ _ _ (hfront hf), ← hrev,
      List.length_reverse]
    exact List.take_left front tail

theorem without_impl_self (front : List GenericParamDef)
    (hfront : ∀ h : front ≠ [], isImplParam (front.getLast h) = false) :
    without_impl front = front := by
  have := without_impl_spec front []
    (fun p hp => absurd hp (List.not_mem_nil p)) hfront
  simpa using this

theorem tabulate_eq_tabBody : ∀ (ts : List Token) (b : Bool),
    tabulate b ts = (if b ∧ ts ≠ [] then [tabT] else []) ++ tabBody ts := by
  intro ts
  induction ts with
  | nil =>
      intro b
      simp [tabulate, tabBody]
  | cons t ts ih =>
      intro b
      rw [tabulate, tabBody, ih (isNewLineT t)]
      by_cases hnl : isNewLineT t = true <;> by_cases hts : ts = [] <;>
        cases b <;> simp [hnl, hts]

theorem from_item_function_decomp {idx : Index} {iid : Id} {iname : Option String}
    {ivis : Visibility} {iattrs : List String} {f : FunctionTy} {ts : List Token}
    (h : Tokens.from_item ⟨iid, iname, ivis, iattrs, .Function f⟩ idx = .ok ts) :
    ∃ a gps ins outTs wps,
      with_attrs iattrs = .ok a ∧
      withList with_generic_param_def [Token.Ponct "<"] [Token.Ponct ">"]
        [Token.Ponct ",", spT] (without_impl f.generics.params) = .ok gps ∧
      fnInputs f.decl = .ok ins ∧
      fnOutput f.decl = .ok outTs ∧
      withList with_where_predicate [nlT, Token.Kw "where", nlT, tabT] []
        [Token.Ponct ",", nlT, tabT] f.generics.where_predicates = .ok wps ∧
      ts = a ++ with_visibility ivis ++ with_header f.header ++ [Token.Kw "fn"] ++
        nameTokens iname iid ++
        gps ++ [Token.Ponct "("] ++ ins ++ varTokens f.decl ++
        [Token.Ponct ")"] ++ outTs ++ wps ++
        (if f.has_body then
          (if f.generics.where_predicates.isEmpty then [spT]
           else [Token.Ponct ",", nlT]) ++
          [obT, spT, Token.Special .Ignored, spT, cbT]
         else [Token.Ponct ";"]) := by
  simp only [Tokens.from_item] at h
  rw [with_function] at h
  cases ha : with_attrs iattrs with
  | error o => simp [ha] at h
  | ok a =>
  simp only [ha, pp_bind_ok] at h
  cases hgps : withList with_generic_param_def [Token.Ponct "<"] [Token.Ponct ">"]
      [Token.Ponct ",", spT] (without_impl f.generics.params) with
  | error o => simp [hgps] at h
  | ok gps =>
  simp only [hgps, pp_bind_ok] at h
  cases hins : fnInputs f.decl with
  | error o => simp [hins] at h
  | ok ins =>
  simp only [hins, pp_bind_ok] at h
  cases houts : fnOutput f.decl with
  | error o => simp [houts] at h
  | ok outTs =>
  simp only [houts, pp_bind_ok] at h
  cases hwps : withList with_where_predicate [nlT, Token.Kw "where", nlT, tabT] []
      [Token.Ponct ",", nlT, tabT] f.generics.where_predicates with
  | error o => simp [hwps] at h
  | ok wps =>
  simp only [hwps, pp_bind_ok] at h
  cases h
  exact ⟨a, gps, ins, outTs, wps, rfl, rfl, rfl, rfl, rfl, by simp⟩

theorem from_item_struct_plain_decomp {idx : Index} {iid : Id}
    {iname : Option String} {ivis : Visibility} {iattrs : List String}
    {fields : List Id} {stripped : Bool} {g : Generics} {ts : List Token}
    (h : Tokens.from_item ⟨iid, iname, ivis, iattrs,
        .Struct ⟨.Plain fields stripped, g⟩⟩ idx = .ok ts) :
    ∃ a gps wps resolved body,
      with_attrs iattrs = .ok a ∧
      withList with_generic_param_def [Token.Ponct "<"] [Token.Ponct ">"]
        [Token.Ponct ",", spT] g.params = .ok gps ∧
      withList with_where_predicate [nlT, Token.Kw "where", nlT, tabT]
        [Token.Ponct ",", nlT] [Token.Ponct ",", nlT, tabT]
        g.where_predicates = .ok wps ∧
      resolveStructFields idx fields = .ok resolved ∧
      plainBody resolved stripped = .ok body ∧
      ts = a ++ with_visibility ivis ++ [Token.Kw "struct"] ++
        nameTokens iname iid ++
        gps ++ wps ++
        (if g.where_predicates.isEmpty then [spT] else []) ++
        [obT] ++ body ++ [cbT] := by
  simp only [Tokens.from_item] at h
  cases ha : with_attrs iattrs with
  | error o => simp [ha] at h
  | ok a =>
  simp only [ha, pp_bind_ok] at h
  cases hgps : withList with_generic_param_def [Token.Ponct "<"] [Token.Ponct ">"]
      [Token.Ponct ",", spT] g.params with
  | error o => simp [hgps] at h
  | ok gps =>
  simp only [hgps, pp_bind_ok] at h
  cases hwps : withList with_where_predicate [nlT, Token.Kw "where", nlT, tabT]
      [Token.Ponct ",", nlT] [Token.Ponct ",", nlT, tabT] g.where_predicates with
  | error o => simp [hwps] at h
  | ok wps =>
  simp only [hwps, pp_bind_ok] at h
  cases hres : resolveStructFields idx fields with
  | error o => simp [hres] at h
  | ok resolved =>
  simp only [hres, pp_bind_ok] at h
  cases hbody : plainBody resolved stripped with
  | error o => simp [hbody] at h
  | ok body =>
  simp only [hbody, pp_bind_ok] at h
  cases h
  exact ⟨a, gps, wps, resolved, body, rfl, rfl, rfl, rfl, hbody, by simp⟩

theorem from_item_enum_decomp {idx : Index} {iid : Id} {iname : Option String}
    {ivis : Visibility} {iattrs : List String} {e : EnumTy} {ts : List Token}
    (h : Tokens.from_item ⟨iid, iname, ivis, iattrs, .Enum e⟩ idx = .ok ts) :
    ∃ a gps wps resolved body,
      with_attrs iattrs = .ok a ∧
      withList with_generic_param_def [Token.Ponct "<"] [Token.Ponct ">"]
        [Token.Ponct ",", spT] e.generics.params = .ok gps ∧
      withList with_where_predicate [nlT, Token.Kw "where", nlT, tabT]
        [Token.Ponct ","] [Token.Ponct ",", nlT, tabT]
        e.generics.where_predicates = .ok wps ∧
      resolveVariants idx e.variants = .ok resolved ∧
      enumBody idx resolved e.variants_stripped = .ok body ∧
      ts = a ++ with_visibility ivis ++ [Token.Kw "enum"] ++
        nameTokens iname iid ++
        gps ++ wps ++ [spT, obT] ++ body ++ [cbT] := by
  simp only [Tokens.from_item] at h
  cases ha : with_attrs iattrs with
  | error o => simp [ha] at h
  | ok a =>
  simp only [ha, pp_bind_ok] at h
  cases hgps : withList with_generic_param_def [Token.Ponct "<"] [Token.Ponct ">"]
      [Token.Ponct ",", spT] e.generics.params with
  | error o => simp [hgps] at h
  | ok gps =>
  simp only [hgps, pp_bind_ok] at h
  cases hwps : withList with_where_predicate [nlT, Token.Kw "where", nlT, tabT]
      [Token.Ponct ","] [Token.Ponct ",", nlT, tabT] e.generics.where_predicates with
  | error o => simp [hwps] at h
  | ok wps =>
  simp only [hwps, pp_bind_ok] at h
  cases hres : resolveVariants idx e.variants with
  | error o => simp [hres] at h
  | ok resolved =>
  simp only [hres, pp_bind_ok] at h
  cases hbody : enumBody idx resolved e.variants_stripped with
  | error o => simp [hbody] at h
  | ok body =>
  simp only [hbody, pp_bind_ok] at h
  cases h
  exact ⟨a, gps, wps, resolved, body, rfl, rfl, rfl, rfl, hbody, by simp⟩

theorem cleanL_nameTokens (n : Option String) (i : Id) :
    CleanL (nameTokens n i) := by
  cases n <;> simp [nameTokens]

theorem cleanL_varTokens (decl : FnDecl) : CleanL (varTokens decl) := by
  rw [varTokens]
  split
  · refine cleanL_append ?_ (by simp)
    split <;> simp
  · exact cleanL_nil

theorem unwrapName_some {it : Item} {n : String} (hn : it.name = some n) :
    unwrapName it = pure n := by
  rw [unwrapName, hn]

theorem with_enum_variant_struct_decomp {idx : Index} {it : Item} {n : String}
    {fields : List Id} {stripped : Bool} {disc : Option Discriminant}
    {ts : List Token} (hn : it.name = some n)
    (h : with_enum_variant idx it ⟨.Struct fields stripped, disc⟩ = .ok ts) :
    ∃ resolved body,
      resolveStructFields idx fields = .ok resolved ∧
      variantStructBody resolved stripped = .ok body ∧
      ts = Token.Ident n none :: spT :: obT :: spT :: body ++ [spT, cbT] := by
  rw [with_enum_variant, unwrapName_some hn] at h
  simp only [pp_pure_bind] at h
  cases hres : resolveStructFields idx fields with
  | error o => simp [hres] at h
  | ok resolved =>
  simp only [hres, pp_bind_ok] at h
  cases hbody : variantStructBody resolved stripped with
  | error o => simp [hbody] at h
  | ok body =>
  simp only [hbody, pp_bind_ok] at h
  cases h
  exact ⟨resolved, body, rfl, hbody, rfl⟩

theorem variantStructBody_empty_stripped :
    variantStructBody [] true = .ok [Token.Ponct "_"] := rfl

theorem variantStructBody_nonempty {items : List (Item × RType)}
    (hne : items ≠ []) {body : List Token}
    (h : variantStructBody items true = .ok body) :
    ∃ rs, ppMapM (fun p => with_struct_field p.1 p.2) items = .ok rs ∧
      body = joinBetween [Token.Ponct ",", spT] rs ++
        [Token.Ponct ",", spT, Token.Ponct "..."] := by
  rw [variantStructBody] at h
  rw [if_pos (by simpa using hne)] at h
  cases hrs : ppMapM (fun p => with_struct_field p.1 p.2) items with
  | error o => simp [hrs] at h
  | ok rs =>
      simp only [hrs, pp_bind_ok] at h
      cases h
      exact ⟨rs, rfl, by simp⟩

theorem plainBody_empty_stripped :
    plainBody [] true = .ok [spT, Token.Special (.Hidden true), spT] := rfl

theorem plainBody_nonempty {items : List (Item × RType)} (hne : items ≠ [])
    {body : List Token} (h : plainBody items true = .ok body) :
    ∃ rs, ppMapM (fun p => with_struct_field p.1 p.2) items = .ok rs ∧
      rs ≠ [] ∧
      body = tabulate true (linesBlock rs) ++
        [nlT, tabT, Token.Special (.Hidden false), nlT] := by
  rw [plainBody] at h
  rw [if_pos (by simpa using hne)] at h
  cases hrs : ppMapM (fun p => with_struct_field p.1 p.2) items with
  | error o => simp [hrs] at h
  | ok rs =>
      simp only [hrs, pp_bind_ok] at h
      cases h
      refine ⟨rs, rfl, ?_, ?_⟩
      · intro hc
        exact hne ((ppMapM_ok_nil_iff hrs).1 hc)
      · have hrsne : rs ≠ [] := fun hc => hne ((ppMapM_ok_nil_iff hrs).1 hc)
        simp only [if_true]
        rw [tabulate_append, endFlag_linesBlock rs hrsne]
        simp [tabulate, isNewLineT, nlT]

theorem enumBody_empty_stripped (idx : Index) :
    enumBody idx [] true = .ok [spT, Token.Special (.Hidden true), spT] := rfl

theorem enumBody_nonempty {idx : Index} {items : List (Item × VariantTy)}
    (hne : items ≠ []) {body : List Token}
    (h : enumBody idx items true = .ok body) :
    ∃ rs, ppMapM (fun p => with_enum_variant idx p.1 p.2) items = .ok rs ∧
      rs ≠ [] ∧
      body = tabulate true (linesBlock rs) ++
        [nlT, tabT, Token.Special (.Hidden false), nlT] := by
  rw [enumBody] at h
  rw [if_pos (by simpa using hne)] at h
  cases hrs : ppMapM (fun p => with_enum_variant idx p.1 p.2) items with
  | error o => simp [hrs] at h
  | ok rs =>
      simp only [hrs, pp_bind_ok] at h
      cases h
      refine ⟨rs, rfl, ?_, ?_⟩
      · intro hc
        exact hne ((ppMapM_ok_nil_iff hrs).1 hc)
      · have hrsne : rs ≠ [] := fun hc => hne ((ppMapM_ok_nil_iff hrs).1 hc)
        simp only [if_true]
        rw [tabulate_append, endFlag_linesBlock rs hrsne]
        simp [tabulate, isNewLineT, nlT]

theorem resolveVariants_ok_get {idx : Index} :
    ∀ {vs : List Id} {l : List (Item × VariantTy)},
      resolveVariants idx vs = .ok l →
      ∀ i (h1 : i < vs.length) (h2 : i < l.length),
        Index.get idx (vs.get ⟨i, h1⟩) = some (l.get ⟨i, h2⟩).1 ∧
        (l.get ⟨i, h2⟩).1.inner = .Variant (l.get ⟨i, h2⟩).2 := by
  intro vs
  induction vs with
  | nil =>
      intro l h i h1 h2
      exact absurd h1 (by simp)
  | cons id rest ih =>
      intro l h i h1 h2
      rw [resolveVariants] at h
      split at h
      · simp [errPP] at h
      · split at h
        · cases hr : resolveVariants idx rest with
          | error o => simp [hr] at h
          | ok tl =>
              simp only [hr, pp_bind_ok] at h
              cases h
              cases i with
              | zero =>
                  constructor
                  · simpa using (by assumption : Index.get idx id = some _)
                  · simpa using (by assumption)
              | succ j =>
                  exact ih hr j (Nat.lt_of_succ_lt_succ h1)
                    (Nat.lt_of_succ_lt_succ h2)
        · simp [errPP] at h

theorem sublist_tabulate : ∀ (b : Bool) (ts : List Token),
    List.Sublist ts (tabulate b ts)
  | _, [] => List.Sublist.refl []
  | b, t :: ts => by
      rw [tabulate]
      exact (List.Sublist.cons₂ t (sublist_tabulate (isNewLineT t) ts)).trans
        (List.sublist_append_right _ _)

theorem flatten_sublist_linesBlock : ∀ rs : List (List Token),
    List.Sublist rs.flatten (linesBlock rs)
  | [] => List.Sublist.refl []
  | r :: rs => by
      rw [linesBlock, List.flatten_cons]
      have h1 : List.Sublist rs.flatten (Token.Ponct "," :: linesBlock rs) :=
        List.Sublist.cons _ (flatten_sublist_linesBlock rs)
      have h2 := List.Sublist.append_left h1 r
      have h3 := List.Sublist.cons nlT h2
      simpa using h3

theorem flatten_sublist_traitItemsBlock : ∀ rs : List (List Token),
    List.Sublist rs.flatten (traitItemsBlock rs)
  | [] => List.Sublist.refl []
  | r :: rs => by
      have h1 : List.Sublist rs.flatten (nlT :: traitItemsBlock rs) :=
        List.Sublist.cons _ (flatten_sublist_traitItemsBlock rs)
      have h2 := List.Sublist.append_left h1 r
      have h3 := List.Sublist.cons nlT h2
      rw [List.flatten_cons]
      simp only [traitItemsBlock, List.map_cons, List.flatten_cons] at h3 ⊢
      simpa using h3

theorem sublist_append_embed {α : Type} {l m : List α} (a b : List α)
    (h : List.Sublist l m) : List.Sublist l (a ++ m ++ b) :=
  (h.trans (List.sublist_append_right a m)).trans
    (List.sublist_append_left (a ++ m) b)

theorem plainBody_flatten_sublist {items : List (Item × RType)} {stripped : Bool}
    {body : List Token} (h : plainBody items stripped = .ok body) :
    ∃ rs, ppMapM (fun p => with_struct_field p.1 p.2) items = .ok rs ∧
      List.Sublist rs.flatten body := by
  rw [plainBody] at h
  split at h
  · cases hrs : ppMapM (fun p => with_struct_field p.1 p.2) items with
    | error o => simp [hrs] at h
    | ok rs =>
        simp only [hrs, pp_bind_ok] at h
        cases h
        refine ⟨rs, rfl, ?_⟩
        have s1 := flatten_sublist_linesBlock rs
        have s2 := s1.trans (List.sublist_append_left (linesBlock rs)
          (if stripped then [nlT, Token.Special (.Hidden false)] else []))
        have s3 := s2.trans (sublist_tabulate true _)
        exact s3.trans (List.sublist_append_left _ [nlT])
  · rename_i hc
    have hi : items = [] := by simpa using hc
    subst hi
    split at h <;> cases h <;> exact ⟨[], rfl, List.nil_sublist _⟩

theorem enumBody_flatten_sublist {idx : Index} {items : List (Item × VariantTy)}
    {stripped : Bool} {body : List Token}
    (h : enumBody idx items stripped = .ok body) :
    ∃ rs, ppMapM (fun p => with_enum_variant idx p.1 p.2) items = .ok rs ∧
      List.Sublist rs.flatten body := by
  rw [enumBody] at h
  split at h
  · cases hrs : ppMapM (fun p => with_enum_variant idx p.1 p.2) items with
    | error o => simp [hrs] at h
    | ok rs =>
        simp only [hrs, pp_bind_ok] at h
        cases h
        refine ⟨rs, rfl, ?_⟩
        have s1 := flatten_sublist_linesBlock rs
        have s2 := s1.trans (List.sublist_append_left (linesBlock rs)
          (if stripped then [nlT, Token.Special (.Hidden false)] else []))
        have s3 := s2.trans (sublist_tabulate true _)
        exact s3.trans (List.sublist_append_left _ [nlT])
  · rename_i hc
    have hi : items = [] := by simpa using hc
    subst hi
    split at h <;> cases h <;> exact ⟨[], rfl, List.nil_sublist _⟩

theorem from_item_trait_decomp {idx : Index} {iid : Id} {iname : Option String}
    {ivis : Visibility} {iattrs : List String} {t : TraitTy} {ts : List Token}
    (h : Tokens.from_item ⟨iid, iname, ivis, iattrs, .Trait t⟩ idx = .ok ts) :
    ∃ a gps bds wps rs,
      with_attrs iattrs = .ok a ∧
      withList with_generic_param_def [Token.Ponct "<"] [Token.Ponct ">"]
        [Token.Ponct ",", spT] t.generics.params = .ok gps ∧
      withList with_generic_bound [Token.Ponct ":", spT] []
        [spT, Token.Ponct "+", spT] t.bounds = .ok bds ∧
      withList with_where_predicate [nlT, Token.Kw "where", nlT, tabT]
        [Token.Ponct ",", nlT] [Token.Ponct ",", nlT, tabT]
        t.generics.where_predicates = .ok wps ∧
      ppMapM (resolveTraitMember idx) t.items = .ok rs ∧
      ts = a ++ with_visibility ivis ++
        (if t.isUnsafe then [Token.Kw "unsafe", spT] else []) ++
        (if t.isAuto then [Token.Kw "auto", spT] else []) ++
        [Token.Kw "trait"] ++ nameTokens iname iid ++
        gps ++ bds ++ wps ++
        (if t.generics.where_predicates.isEmpty then [spT] else []) ++
        [obT] ++ tabulate true (traitItemsBlock rs) ++ [cbT] := by
  simp only [Tokens.from_item] at h
  cases ha : with_attrs iattrs with
  | error o => simp [ha] at h
  | ok a =>
  simp only [ha, pp_bind_ok] at h
  cases hgps : withList with_generic_param_def [Token.Ponct "<"] [Token.Ponct ">"]
      [Token.Ponct ",", spT] t.generics.params with
  | error o => simp [hgps] at h
  | ok gps =>
  simp only [hgps, pp_bind_ok] at h
  cases hbds : withList with_generic_bound [Token.Ponct ":", spT] []
      [spT, Token.Ponct "+", spT] t.bounds with
  | error o => simp [hbds] at h
  | ok bds =>
  simp only [hbds, pp_bind_ok] at h
  cases hwps : withList with_where_predicate [nlT, Token.Kw "where", nlT, tabT]
      [Token.Ponct ",", nlT] [Token.Ponct ",", nlT, tabT]
      t.generics.where_predicates with
  | error o => simp [hwps] at h
  | ok wps =>
  simp only [hwps, pp_bind_ok] at h
  cases hrs : ppMapM (resolveTraitMember idx) t.items with
  | error o => simp [hrs] at h
  | ok rs =>
  simp only [hrs, pp_bind_ok] at h
  cases h
  exact ⟨a, gps, bds, wps, rs, rfl, rfl, rfl, rfl, rfl, by simp⟩

/-- C1 (code-bug exhibit): on a constant item whose raw attribute list holds
the malformed one-byte string `#`, `Tokens.from_item` panics — the source
slices `attr[2..]` out of bounds before its `AttributeParsing` guard can fire
— instead of returning the `AttributeParsing` error value the specification
requires for malformed attribute text. -/
theorem claim_C1 :
    Tokens.from_item malformedAttrConstItem [] =
      .error (.panicked "byte index 2 is out of bounds") := by
  decide

/-- C5: the visibility prefixes are exactly `pub`+space (public),
`pub ( crate )`+space (crate-restricted), `pub ( in <path> )`+space with the
path as a cross-referencing identifier (restricted-to-path), and no tokens at
all (default); moreover in an item rendering (shown for a plain struct) these
tokens appear between the attribute lines and the kind keyword of the item. -/
theorem claim_C5 :
    with_visibility .Public = [Token.Kw "pub", spT] ∧
    with_visibility .Default = [] ∧
    with_visibility .Crate =
      [Token.Kw "pub", Token.Ponct "(", Token.Kw "crate", Token.Ponct ")", spT] ∧
    (∀ (parent : Id) (path : String), with_visibility (.Restricted parent path) =
      [Token.Kw "pub", Token.Ponct "(", Token.Kw "in", spT,
       Token.Ident path (some parent), Token.Ponct ")", spT]) ∧
    (∀ (idx : Index) (iid : Id) (iname : Option String) (ivis : Visibility)
       (iattrs : List String) (fields : List Id) (stripped : Bool)
       (g : Generics) (ts : List Token),
      Tokens.from_item
        ⟨iid, iname, ivis, iattrs, .Struct ⟨.Plain fields stripped, g⟩⟩ idx =
        .ok ts →
      ∃ a rest, with_attrs iattrs = .ok a ∧
        ts = a ++ with_visibility ivis ++ Token.Kw "struct" :: rest) := by
  refine ⟨rfl, rfl, rfl, fun parent path => rfl, ?_⟩
  intro idx iid iname ivis iattrs fields stripped g ts hok
  obtain ⟨a, gps, wps, resolved, body, ha, _, _, _, _, hts⟩ :=
    from_item_struct_plain_decomp hok
  refine ⟨a, nameTokens iname iid ++ gps ++ wps ++
    (if g.where_predicates.isEmpty then [spT] else []) ++ [obT] ++ body ++ [cbT],
    ha, ?_⟩
  rw [hts]
  simp

/-- C6: every ordered child list is rendered in declared order, never sorted
or deduplicated. First, the `with` combinator (generic parameters, bounds and
where-predicates all go through it): when it succeeds there is one rendered
token list per child, in the same positions, and the output interleaves them
in that order between the `before`/`after` decorations; and child-id
resolution returns the resolved children in declared order. Then the three
emission loops that bypass the combinator: for a plain struct, an enum and a
trait whose rendering succeeds, there is one rendered token list per declared
field, variant or member id, in the same positions (each the rendering of the
child resolved from the id at that position), and their concatenation in
declared order is an order-preserving subsequence (`List.Sublist`) of the full
output token sequence — the loop decorations and tabulations only ever insert
tokens between the children, never reorder them. -/
theorem claim_C6 :
    (∀ {α : Type} (f : α → PP (List Token)) (before after between : List Token)
       (items : List α) (out : List Token),
      withList f before after between items = .ok out →
      ∃ rs : List (List Token), rs.length = items.length ∧
        (∀ i (h1 : i < items.length) (h2 : i < rs.length),
          f (items.get ⟨i, h1⟩) = .ok (rs.get ⟨i, h2⟩)) ∧
        (items = [] → out = []) ∧
        (items ≠ [] →
          out = before ++ joinBetween between rs ++ after)) ∧
    (∀ (idx : Index) (fields : List Id) (l : List (Item × RType)),
      resolveStructFields idx fields = .ok l →
      l.length = fields.length ∧
      ∀ i (h1 : i < fields.length) (h2 : i < l.length),
        Index.get idx (fields.get ⟨i, h1⟩) = some (l.get ⟨i, h2⟩).1) ∧
    (∀ (idx : Index) (iid : Id) (iname : Option String) (ivis : Visibility)
       (iattrs : List String) (fields : List Id) (stripped : Bool) (g : Generics)
       (ts : List Token),
      Tokens.from_item ⟨iid, iname, ivis, iattrs,
          .Struct ⟨.Plain fields stripped, g⟩⟩ idx = .ok ts →
      ∃ (items : List (Item × RType)) (rs : List (List Token)),
        resolveStructFields idx fields = .ok items ∧
        items.length = fields.length ∧
        rs.length = fields.length ∧
        (∀ i (h1 : i < items.length) (h2 : i < rs.length),
          with_struct_field (items.get ⟨i, h1⟩).1 (items.get ⟨i, h1⟩).2 =
            .ok (rs.get ⟨i, h2⟩)) ∧
        List.Sublist rs.flatten ts) ∧
    (∀ (idx : Index) (iid : Id) (iname : Option String) (ivis : Visibility)
       (iattrs : List String) (e : EnumTy) (ts : List Token),
      Tokens.from_item ⟨iid, iname, ivis, iattrs, .Enum e⟩ idx = .ok ts →
      ∃ (items : List (Item × VariantTy)) (rs : List (List Token)),
        resolveVariants idx e.variants = .ok items ∧
        items.length = e.variants.length ∧
        (∀ i (h1 : i < e.variants.length) (h2 : i < items.length),
          Index.get idx (e.variants.get ⟨i, h1⟩) = some (items.get ⟨i, h2⟩).1) ∧
        rs.length = e.variants.length ∧
        (∀ i (h1 : i < items.length) (h2 : i < rs.length),
          with_enum_variant idx (items.get ⟨i, h1⟩).1 (items.get ⟨i, h1⟩).2 =
            .ok (rs.get ⟨i, h2⟩)) ∧
        List.Sublist rs.flatten ts) ∧
    (∀ (idx : Index) (iid : Id) (iname : Option String) (ivis : Visibility)
       (iattrs : List String) (t : TraitTy) (ts : List Token),
      Tokens.from_item ⟨iid, iname, ivis, iattrs, .Trait t⟩ idx = .ok ts →
      ∃ rs : List (List Token),
        rs.length = t.items.length ∧
        (∀ i (h1 : i < t.items.length) (h2 : i < rs.length),
          resolveTraitMember idx (t.items.get ⟨i, h1⟩) = .ok (rs.get ⟨i, h2⟩)) ∧
        List.Sublist rs.flatten ts) := by
  refine ⟨?_, ?_, ?_, ?_, ?_⟩
  · intro α f before after between items out h
    rw [withList] at h
    cases hm : ppMapM f items with
    | error o => simp [hm] at h
    | ok rs =>
        simp only [hm, pp_bind_ok] at h
        cases h
        refine ⟨rs, ppMapM_ok_length hm, ppMapM_ok_get hm, ?_, ?_⟩
        · intro hitems
          have : rs = [] := (ppMapM_ok_nil_iff hm).2 hitems
          simp [withRendered, this]
        · intro hitems
          have : rs ≠ [] := fun hc => hitems ((ppMapM_ok_nil_iff hm).1 hc)
          simp [withRendered, this]
  · intro idx fields l h
    exact ⟨resolveStructFields_ok_length h,
      fun i h1 h2 => (resolveStructFields_ok_get h i h1 h2).1⟩
  · intro idx iid iname ivis iattrs fields stripped g ts hok
    obtain ⟨a, gps, wps, resolved, body, ha, hgps, hwps, hres, hbody, hts⟩ :=
      from_item_struct_plain_decomp hok
    obtain ⟨rs, hrs, hsub⟩ := plainBody_flatten_sublist hbody
    have hlenI : resolved.length = fields.length :=
      resolveStructFields_ok_length hres
    have hlenR : rs.length = resolved.length := ppMapM_ok_length hrs
    refine ⟨resolved, rs, hres, hlenI, by rw [hlenR, hlenI], ?_, ?_⟩
    · intro i h1 h2
      exact ppMapM_ok_get hrs i h1 h2
    · rw [hts]
      exact sublist_append_embed _ _ hsub
  · intro idx iid iname ivis iattrs e ts hok
    obtain ⟨a, gps, wps, resolved, body, ha, hgps, hwps, hres, hbody, hts⟩ :=
      from_item_enum_decomp hok
    obtain ⟨rs, hrs, hsub⟩ := enumBody_flatten_sublist hbody
    have hlenI : resolved.length = e.variants.length :=
      resolveVariants_ok_length hres
    have hlenR : rs.length = resolved.length := ppMapM_ok_length hrs
    refine ⟨resolved, rs, hres, hlenI, ?_, by rw [hlenR, hlenI], ?_, ?_⟩
    · intro i h1 h2
      exact (resolveVariants_ok_get hres i h1 h2).1
    · intro i h1 h2
      exact ppMapM_ok_get hrs i h1 h2
    · rw [hts]
      exact sublist_append_embed _ _ hsub
  · intro idx iid iname ivis iattrs t ts hok
    obtain ⟨a, gps, bds, wps, rs, ha, hgps, hbds, hwps, hrs, hts⟩ :=
      from_item_trait_decomp hok
    refine ⟨rs, ppMapM_ok_length hrs, ?_, ?_⟩
    · intro i h1 h2
      exact ppMapM_ok_get hrs i h1 h2
    · rw [hts]
      exact sublist_append_embed _ _
        ((flatten_sublist_traitItemsBlock rs).trans (sublist_tabulate true _))

/-- C7: `Tokens.from_type` never returns the `ChildrenNotFound` or
`UnexpectedItemType` error — type-expression lowering never dereferences the
index, so over syntactically valid type trees it can only succeed or hit one
of the deferred-construct panics. -/
theorem claim_C7 (ty : RType) : noChildErr (Tokens.from_type ty) = true := by
  rw [Tokens.from_type]
  cases h : with_type ty with
  | ok ts => rfl
  | error o =>
      cases o with
      | err e => exact absurd h ((good_with_type ty).2 e)
      | panicked m => rfl

/-- C9 counterexample: pushing the single non-newline token `x` through a
fresh tabulation-pusher decorator forwards `Tabulation, x` — a `Tabulation`
with no preceding `NewLine` — so the decorator does not insert tabulations
only after newline tokens, refuting the claim as stated. -/
theorem claim_C9_counterexample :
    tabulate true [Token.Ident "x" none] ≠
      tabAfterNewLineSpec [Token.Ident "x" none] := by
  decide

/-- C9 (amended): the tabulation-pusher decorator forwards exactly the pushed
tokens with one `Tabulation` inserted before the first forwarded token (its
pending flag starts true) and one after each `NewLine` that is followed by
another token, and inserts `Tabulation` nowhere else. -/
theorem claim_C9 (ts : List Token) : tabulate true ts = tabPusherSpec ts := by
  rw [tabPusherSpec, tabulate_eq_tabBody]
  by_cases h : ts = [] <;> simp [h, tabBody]

/-- C3: when the generic parameter list of a function ends in a trailing run of
`impl`-named type parameters, `without_impl` strips exactly that run, so
`Tokens.from_item` renders the same tokens as for the function with only the
front parameters in its angle-bracket list; independently, a type parameter
marked synthetic renders to no tokens at all, while a function parameter type
that names such a parameter still prints as that name. -/
theorem claim_C3 (front tail : List GenericParamDef)
    (htail : ∀ p ∈ tail, isImplParam p = true)
    (hfront : ∀ h : front ≠ [], isImplParam (front.getLast h) = false) :
    without_impl (front ++ tail) = front ∧
    (∀ (idx : Index) (item : Item) (f : FunctionTy),
      item.inner = .Function f → f.generics.params = front ++ tail →
      Tokens.from_item item idx =
        Tokens.from_item ⟨item.id, item.name, item.visibility, item.attrs,
          .Function ⟨f.decl, ⟨front, f.generics.where_predicates⟩, f.header,
            f.has_body⟩⟩ idx) ∧
    (∀ (name : String) (bounds : List GenericBound) (default : Option RType),
      with_generic_param_def ⟨name, .TypeParam bounds default true⟩ = .ok []) ∧
    (∀ s : String, with_type (.Generic s) = .ok [Token.Ident s none]) := by
  refine ⟨without_impl_spec front tail htail hfront, ?_, ?_, ?_⟩
  · intro idx item f hin hparams
    obtain ⟨iid, iname, ivis, iattrs, inner⟩ := item
    obtain ⟨decl, g, header, hb⟩ := f
    obtain ⟨params, wps⟩ := g
    simp only at hin hparams
    subst hin
    subst hparams
    simp only [Tokens.from_item]
    rw [with_function, with_function]
    simp only
    rw [without_impl_spec front tail htail hfront, without_impl_self front hfront]
  · intro name bounds default
    rfl
  · intro s
    rfl

/-- C4: a function item lowered through `Tokens.from_item` ends with the
punctuation token `;` and contains no body-elided `Ignored` token when it has
no body, and ends with the braced placeholder `\x7b <Ignored> \x7d` when it
has one. -/
theorem claim_C4 (idx : Index) (item : Item) (f : FunctionTy)
    (hin : item.inner = .Function f) (ts : List Token)
    (hok : Tokens.from_item item idx = .ok ts) :
    (f.has_body = false →
      (∃ pre, ts = pre ++ [Token.Ponct ";"]) ∧
      Token.Special .Ignored ∉ ts) ∧
    (f.has_body = true →
      ∃ pre, ts = pre ++ [obT, spT, Token.Special .Ignored, spT, cbT]) := by
  obtain ⟨iid, iname, ivis, iattrs, inner⟩ := item
  simp only at hin
  subst hin
  obtain ⟨a, gps, ins, outTs, wps, ha, hgps, hins, houts, hwps, hts⟩ :=
    from_item_function_decomp hok
  have hGg : GoodRes (withList with_generic_param_def [Token.Ponct "<"]
      [Token.Ponct ">"] [Token.Ponct ",", spT] (without_impl f.generics.params)) :=
    good_withList (by simp) (by simp) (by simp)
      (fun x _ => good_with_generic_param_def x)
  have hGw : GoodRes (withList with_where_predicate
      [nlT, Token.Kw "where", nlT, tabT] [] [Token.Ponct ",", nlT, tabT]
      f.generics.where_predicates) :=
    good_withList (by simp) (by simp) (by simp)
      (fun x _ => good_with_where_predicate x)
  have hcleanPre : CleanL (a ++ with_visibility ivis ++ with_header f.header ++
      [Token.Kw "fn"] ++ nameTokens iname iid ++ gps ++ [Token.Ponct "("] ++
      ins ++ varTokens f.decl ++ [Token.Ponct ")"] ++ outTs ++ wps) := by
    simp only [cleanL_append_iff]
    refine ⟨⟨⟨⟨⟨⟨⟨⟨⟨⟨⟨?_, ?_⟩, ?_⟩, ?_⟩, ?_⟩, ?_⟩, ?_⟩, ?_⟩, ?_⟩, ?_⟩, ?_⟩, ?_⟩
    · exact cleanRes_with_attrs iattrs a ha
    · exact cleanL_with_visibility ivis
    · exact cleanL_with_header f.header
    · simp
    · exact cleanL_nameTokens iname iid
    · exact hGg.1 gps hgps
    · simp
    · exact (good_fnInputs f.decl).1 ins hins
    · exact cleanL_varTokens f.decl
    · simp
    · exact (good_fnOutput f.decl).1 outTs houts
    · exact hGw.1 wps hwps
  constructor
  · intro hb
    rw [hb] at hts
    rw [if_neg (by simp)] at hts
    refine ⟨⟨_, hts⟩, ?_⟩
    rw [hts]
    exact cleanL_not_mem_ignored (cleanL_append hcleanPre (by simp))
  · intro hb
    rw [hb, if_pos rfl] at hts
    refine ⟨a ++ with_visibility ivis ++ with_header f.header ++
      [Token.Kw "fn"] ++ nameTokens iname iid ++ gps ++ [Token.Ponct "("] ++
      ins ++ varTokens f.decl ++ [Token.Ponct ")"] ++ outTs ++ wps ++
      (if f.generics.where_predicates.isEmpty then [spT]
       else [Token.Ponct ",", nlT]), ?_⟩
    rw [hts]
    simp

/-- C10: the parameter-list rendering of a function item depends on arity:
with at most two declared inputs the parameters appear on one line separated
by comma-and-space, and with three or more each parameter is preceded by
newline-and-tabulation, separated by comma-newline-tabulation, with a
trailing newline before the (possibly variadic-marker-then-) closing
parenthesis. -/
theorem claim_C10 (idx : Index) (item : Item) (f : FunctionTy)
    (hin : item.inner = .Function f) (ts : List Token)
    (hok : Tokens.from_item item idx = .ok ts) :
    ∃ pre rs post,
      ppMapM renderFnInput f.decl.inputs = .ok rs ∧
      rs.length = f.decl.inputs.length ∧
      (f.decl.inputs.length ≤ 2 →
        ts = pre ++ [Token.Ponct "("] ++
          withRendered [] [] [Token.Ponct ",", spT] rs ++
          varTokens f.decl ++ [Token.Ponct ")"] ++ post) ∧
      (2 < f.decl.inputs.length →
        rs ≠ [] ∧
        ts = pre ++ [Token.Ponct "("] ++
          ([nlT, tabT] ++ joinBetween [Token.Ponct ",", nlT, tabT] rs ++ [nlT]) ++
          varTokens f.decl ++ [Token.Ponct ")"] ++ post) := by
  obtain ⟨iid, iname, ivis, iattrs, inner⟩ := item
  simp only at hin
  subst hin
  obtain ⟨a, gps, ins, outTs, wps, ha, hgps, hins, houts, hwps, hts⟩ :=
    from_item_function_decomp hok
  rw [fnInputs] at hins
  refine ⟨a ++ with_visibility ivis ++ with_header f.header ++
    [Token.Kw "fn"] ++ nameTokens iname iid ++ gps,
    ?_⟩
  split at hins
  · rw [withList] at hins
    cases hm : ppMapM renderFnInput f.decl.inputs with
    | error o => simp [hm] at hins
    | ok rs =>
        simp only [hm, pp_bind_ok] at hins
        cases hins
        refine ⟨rs, outTs ++ wps ++
          (if f.has_body then
            (if f.generics.where_predicates.isEmpty then [spT]
             else [Token.Ponct ",", nlT]) ++
            [obT, spT, Token.Special .Ignored, spT, cbT]
           else [Token.Ponct ";"]),
          rfl, ppMapM_ok_length hm, ?_, ?_⟩
        · intro _
          rw [hts]
          simp
        · intro hgt
          omega
  · rw [withList] at hins
    cases hm : ppMapM renderFnInput f.decl.inputs with
    | error o => simp [hm] at hins
    | ok rs =>
        simp only [hm, pp_bind_ok] at hins
        cases hins
        have hlen := ppMapM_ok_length hm
        have hgt : 2 < f.decl.inputs.length := by omega
        have hrsne : rs ≠ [] := by
          intro hc
          rw [hc] at hlen
          simp at hlen
          omega
        refine ⟨rs, outTs ++ wps ++
          (if f.has_body then
            (if f.generics.where_predicates.isEmpty then [spT]
             else [Token.Ponct ",", nlT]) ++
            [obT, spT, Token.Special .Ignored, spT, cbT]
           else [Token.Ponct ";"]),
          rfl, hlen, ?_, ?_⟩
        · intro hle
          omega
        · intro _
          refine ⟨hrsne, ?_⟩
          rw [hts]
          rw [withRendered, if_neg (by simpa using hrsne)]
          simp

/-- C2: for a plain struct whose `fields_stripped` flag is set and whose
fields all resolve and render, the braces content is exactly the all-hidden
placeholder when there is no visible field, and the visible fields followed
by the some-hidden placeholder when there is at least one; each output
contains its own placeholder and not the other, so the two outputs differ. -/
theorem claim_C2 (idx : Index) (item : Item) (s : StructTy) (fields : List Id)
    (hin : item.inner = .Struct s) (hk : s.kind = .Plain fields true)
    (ts : List Token) (hok : Tokens.from_item item idx = .ok ts) :
    (fields = [] →
      Token.Special (.Hidden true) ∈ ts ∧
      Token.Special (.Hidden false) ∉ ts ∧
      ∃ pre, ts = pre ++ [obT, spT, Token.Special (.Hidden true), spT, cbT]) ∧
    (fields ≠ [] →
      Token.Special (.Hidden false) ∈ ts ∧
      Token.Special (.Hidden true) ∉ ts ∧
      ∃ pre resolved rs,
        resolveStructFields idx fields = .ok resolved ∧
        ppMapM (fun p => with_struct_field p.1 p.2) resolved = .ok rs ∧
        rs ≠ [] ∧
        ts = pre ++ [obT] ++ tabulate true (linesBlock rs) ++
          [nlT, tabT, Token.Special (.Hidden false), nlT, cbT]) := by
  obtain ⟨iid, iname, ivis, iattrs, inner⟩ := item
  obtain ⟨kind, g⟩ := s
  simp only at hin hk
  subst hin
  subst hk
  obtain ⟨a, gps, wps, resolved, body, ha, hgps, hwps, hres, hbody, hts⟩ :=
    from_item_struct_plain_decomp hok
  have hGg : GoodRes (withList with_generic_param_def [Token.Ponct "<"]
      [Token.Ponct ">"] [Token.Ponct ",", spT] g.params) :=
    good_withList (by simp) (by simp) (by simp)
      (fun x _ => good_with_generic_param_def x)
  have hGw : GoodRes (withList with_where_predicate
      [nlT, Token.Kw "where", nlT, tabT] [Token.Ponct ",", nlT]
      [Token.Ponct ",", nlT, tabT] g.where_predicates) :=
    good_withList (by simp) (by simp) (by simp)
      (fun x _ => good_with_where_predicate x)
  have hcleanPre : CleanL (a ++ with_visibility ivis ++ [Token.Kw "struct"] ++
      nameTokens iname iid ++ gps ++ wps ++
      (if g.where_predicates.isEmpty then [spT] else [])) := by
    simp only [cleanL_append_iff]
    refine ⟨⟨⟨⟨⟨⟨?_, ?_⟩, ?_⟩, ?_⟩, ?_⟩, ?_⟩, ?_⟩
    · exact cleanRes_with_attrs iattrs a ha
    · exact cleanL_with_visibility ivis
    · simp
    · exact cleanL_nameTokens iname iid
    · exact hGg.1 gps hgps
    · exact hGw.1 wps hwps
    · split <;> simp
  have hlen := resolveStructFields_ok_length hres
  constructor
  · intro hf
    subst hf
    have hresnil : resolved = [] := List.length_eq_zero.1 (by simpa using hlen)
    subst hresnil
    rw [plainBody_empty_stripped] at hbody
    cases hbody
    rw [hts]
    refine ⟨by simp, ?_, ?_⟩
    · intro hmem
      rcases List.mem_append.1 hmem with hmem | hmem
      · rcases List.mem_append.1 hmem with hmem | hmem
        · rcases List.mem_append.1 hmem with hmem | hmem
          · exact cleanL_not_mem_hidden hcleanPre false hmem
          · simp [obT] at hmem
        · simp [spT] at hmem
      · simp [cbT] at hmem
    · exact ⟨a ++ with_visibility ivis ++ [Token.Kw "struct"] ++
        nameTokens iname iid ++ gps ++ wps ++
        (if g.where_predicates.isEmpty then [spT] else []), by simp⟩
  · intro hf
    have hresne : resolved ≠ [] := by
      intro hc
      rw [hc] at hlen
      exact hf (List.length_eq_zero.1 hlen.symm)
    obtain ⟨rs, hrs, hrsne, hbodyeq⟩ := plainBody_nonempty hresne hbody
    subst hbodyeq
    rw [hts]
    have hcleanRs : CleanLL rs := cleanResL_struct_fields rs hrs
    have hcleanTab : CleanL (tabulate true (linesBlock rs)) :=
      cleanL_tabulate (cleanL_linesBlock hcleanRs) true
    refine ⟨by simp, ?_, ?_⟩
    · intro hmem
      rcases List.mem_append.1 hmem with hmem | hmem
      · rcases List.mem_append.1 hmem with hmem | hmem
        · rcases List.mem_append.1 hmem with hmem | hmem
          · exact cleanL_not_mem_hidden hcleanPre true hmem
          · simp [obT] at hmem
        · rcases List.mem_append.1 hmem with hmem | hmem
          · exact cleanL_not_mem_hidden hcleanTab true hmem
          · simp [nlT, tabT, spT] at hmem
      · simp [cbT] at hmem
    · exact ⟨a ++ with_visibility ivis ++ [Token.Kw "struct"] ++
        nameTokens iname iid ++ gps ++ wps ++
        (if g.where_predicates.isEmpty then [spT] else []),
        resolved, rs, hres, hrs, hrsne, by simp⟩

/-- C8 counterexample: a struct-form enum variant with `fields_stripped` set
and no visible field renders as `W \x7b _ \x7d` — punctuation `_`, not the
all-hidden `Hidden` placeholder token the claim asserts — refuting the claim
that the struct-form-variant field list uses the same hidden placeholders as
structs and enums. -/
theorem claim_C8_counterexample :
    Tokens.from_item strippedStructVariantItem [] =
      .ok [Token.Ident "W" none, spT, obT, spT, Token.Ponct "_", spT, cbT] ∧
    Token.Special (.Hidden true) ∉
      [Token.Ident "W" none, spT, obT, spT, Token.Ponct "_", spT, cbT] := by
  constructor
  · decide
  · decide

/-- C8 (amended): enum variant hiding mirrors the struct all/some distinction
with the `Hidden` placeholder tokens (all-hidden when `variants_stripped`
with no visible variant, visible variants then the some-hidden placeholder
otherwise); the field list of a struct-form enum variant with
`fields_stripped` set makes the same two-way distinction but with punctuation
placeholders instead: a lone `_` between the braces when there is no visible
field, and `, ...` appended after the visible fields otherwise — never a
`Hidden` token. -/
theorem claim_C8 :
    (∀ (idx : Index) (item : Item) (e : EnumTy),
      item.inner = .Enum e → e.variants_stripped = true →
      ∀ ts, Tokens.from_item item idx = .ok ts →
      (e.variants = [] →
        Token.Special (.Hidden true) ∈ ts ∧
        Token.Special (.Hidden false) ∉ ts ∧
        ∃ pre, ts = pre ++ [spT, obT, spT, Token.Special (.Hidden true), spT, cbT]) ∧
      (e.variants ≠ [] →
        Token.Special (.Hidden false) ∈ ts ∧
        Token.Special (.Hidden true) ∉ ts ∧
        ∃ pre resolved rs,
          resolveVariants idx e.variants = .ok resolved ∧
          ppMapM (fun p => with_enum_variant idx p.1 p.2) resolved = .ok rs ∧
          rs ≠ [] ∧
          ts = pre ++ [spT, obT] ++ tabulate true (linesBlock rs) ++
            [nlT, tabT, Token.Special (.Hidden false), nlT, cbT])) ∧
    (∀ (idx : Index) (item : Item) (v : VariantTy) (n : String)
       (fields : List Id),
      item.inner = .Variant v → item.name = some n →
      v.kind = .Struct fields true →
      ∀ ts, Tokens.from_item item idx = .ok ts →
      Token.Special (.Hidden true) ∉ ts ∧
      Token.Special (.Hidden false) ∉ ts ∧
      (fields = [] →
        ts = [Token.Ident n none, spT, obT, spT, Token.Ponct "_", spT, cbT]) ∧
      (fields ≠ [] →
        ∃ resolved rs,
          resolveStructFields idx fields = .ok resolved ∧
          ppMapM (fun p => with_struct_field p.1 p.2) resolved = .ok rs ∧
          ts = [Token.Ident n none, spT, obT, spT] ++
            joinBetween [Token.Ponct ",", spT] rs ++
            [Token.Ponct ",", spT, Token.Ponct "..."] ++ [spT, cbT])) := by
  constructor
  · intro idx item e hin hstrip ts hok
    obtain ⟨iid, iname, ivis, iattrs, inner⟩ := item
    simp only at hin
    subst hin
    obtain ⟨a, gps, wps, resolved, body, ha, hgps, hwps, hres, hbody, hts⟩ :=
      from_item_enum_decomp hok
    rw [hstrip] at hbody
    have hGg : GoodRes (withList with_generic_param_def [Token.Ponct "<"]
        [Token.Ponct ">"] [Token.Ponct ",", spT] e.generics.params) :=
      good_withList (by simp) (by simp) (by simp)
        (fun x _ => good_with_generic_param_def x)
    have hGw : GoodRes (withList with_where_predicate
        [nlT, Token.Kw "where", nlT, tabT] [Token.Ponct ","]
        [Token.Ponct ",", nlT, tabT] e.generics.where_predicates) :=
      good_withList (by simp) (by simp) (by simp)
        (fun x _ => good_with_where_predicate x)
    have hcleanPre : CleanL (a ++ with_visibility ivis ++ [Token.Kw "enum"] ++
        nameTokens iname iid ++ gps ++ wps) := by
      simp only [cleanL_append_iff]
      refine ⟨⟨⟨⟨⟨?_, ?_⟩, ?_⟩, ?_⟩, ?_⟩, ?_⟩
      · exact cleanRes_with_attrs iattrs a ha
      · exact cleanL_with_visibility ivis
      · simp
      · exact cleanL_nameTokens iname iid
      · exact hGg.1 gps hgps
      · exact hGw.1 wps hwps
    have hlen := resolveVariants_ok_length hres
    constructor
    · intro hv
      have hresnil : resolved = [] :=
        List.length_eq_zero.1 (by rw [hlen, hv]; rfl)
      subst hresnil
      rw [enumBody_empty_stripped] at hbody
      cases hbody
      rw [hts]
      refine ⟨by simp, ?_, ?_⟩
      · intro hmem
        rcases List.mem_append.1 hmem with hmem | hmem
        · rcases List.mem_append.1 hmem with hmem | hmem
          · rcases List.mem_append.1 hmem with hmem | hmem
            · exact cleanL_not_mem_hidden hcleanPre false hmem
            · simp [spT, obT] at hmem
          · simp [spT] at hmem
        · simp [cbT] at hmem
      · exact ⟨a ++ with_visibility ivis ++ [Token.Kw "enum"] ++
          nameTokens iname iid ++ gps ++ wps, by simp⟩
    · intro hv
      have hresne : resolved ≠ [] := by
        intro hc
        rw [hc] at hlen
        exact hv (List.length_eq_zero.1 hlen.symm)
      obtain ⟨rs, hrs, hrsne, hbodyeq⟩ := enumBody_nonempty hresne hbody
      subst hbodyeq
      rw [hts]
      have hcleanRs : CleanLL rs :=
        cleanL_ppMapM (fun p _ => cleanRes_with_enum_variant idx p.1 p.2) rs hrs
      have hcleanTab : CleanL (tabulate true (linesBlock rs)) :=
        cleanL_tabulate (cleanL_linesBlock hcleanRs) true
      refine ⟨by simp, ?_, ?_⟩
      · intro hmem
        rcases List.mem_append.1 hmem with hmem | hmem
        · rcases List.mem_append.1 hmem with hmem | hmem
          · rcases List.mem_append.1 hmem with hmem | hmem
            · exact cleanL_not_mem_hidden hcleanPre true hmem
            · simp [spT, obT] at hmem
          · rcases List.mem_append.1 hmem with hmem | hmem
            · exact cleanL_not_mem_hidden hcleanTab true hmem
            · simp [nlT, tabT, spT] at hmem
        · simp [cbT] at hmem
      · exact ⟨a ++ with_visibility ivis ++ [Token.Kw "enum"] ++
          nameTokens iname iid ++ gps ++ wps,
          resolved, rs, hres, hrs, hrsne, by simp⟩
  · intro idx item v n fields hin hn hk ts hok
    obtain ⟨iid, iname, ivis, iattrs, inner⟩ := item
    obtain ⟨kind, disc⟩ := v
    simp only at hin hk hn
    subst hin
    subst hk
    have hok2 : with_enum_variant idx
        ⟨iid, iname, ivis, iattrs, .Variant ⟨.Struct fields true, disc⟩⟩
        ⟨.Struct fields true, disc⟩ = .ok ts := by
      simpa only [Tokens.from_item] using hok
    have hclean : CleanL ts :=
      cleanRes_with_enum_variant idx _ _ ts hok2
    obtain ⟨resolved, body, hres, hbody, hts⟩ :=
      with_enum_variant_struct_decomp hn hok2
    have hlen := resolveStructFields_ok_length hres
    refine ⟨cleanL_not_mem_hidden hclean true, cleanL_not_mem_hidden hclean false,
      ?_, ?_⟩
    · intro hf
      subst hf
      have hresnil : resolved = [] := List.length_eq_zero.1 (by simpa using hlen)
      subst hresnil
      rw [variantStructBody_empty_stripped] at hbody
      cases hbody
      rw [hts]
      simp
    · intro hf
      have hresne : resolved ≠ [] := by
        intro hc
        rw [hc] at hlen
        exact hf (List.length_eq_zero.1 hlen.symm)
      obtain ⟨rs, hrs, hbodyeq⟩ := variantStructBody_nonempty hresne hbody
      subst hbodyeq
      rw [hts]
      exact ⟨resolved, rs, hres, hrs, by simp⟩

/-- Witness for C2 at a concrete stripped struct with one visible field. -/
theorem claim_C2_witness :
    ∃ ts, Tokens.from_item sampleStructItem sampleIdx = .ok ts ∧
      Token.Special (SpecialToken.Hidden false) ∈ ts ∧
      Token.Special (SpecialToken.Hidden true) ∉ ts := by
  have hok : Tokens.from_item sampleStructItem sampleIdx = .ok
      [Token.Kw "pub", spT, Token.Kw "struct", spT, Token.Ident "S" (some "s0"),
       spT, obT, tabT, nlT, tabT, Token.Kw "pub", spT, Token.Ident "x" none,
       Token.Ponct ":", spT, Token.Primitive "u8", Token.Ponct ",", nlT, tabT,
       Token.Special (.Hidden false), nlT, cbT] := by decide
  have h := (claim_C2 sampleIdx sampleStructItem ⟨.Plain ["f0"] true, ⟨[], []⟩⟩
    ["f0"] rfl rfl _ hok).2 (by decide)
  exact ⟨_, hok, h.1, h.2.1⟩

/-- Witness for C3 at a concrete parameter list `T, impl Trait`. -/
theorem claim_C3_witness :
    without_impl ([tParam] ++ [implParam]) = [tParam] ∧
    with_generic_param_def ⟨"impl Trait", .TypeParam [] none true⟩ = .ok [] ∧
    with_type (.Generic "impl Trait") = .ok [Token.Ident "impl Trait" none] := by
  have h := claim_C3 [tParam] [implParam] (by decide) (fun _ => rfl)
  exact ⟨h.1, h.2.2.1 "impl Trait" [] none, h.2.2.2 "impl Trait"⟩

/-- Witness for C4 at the concrete no-body function `fn foo();`. -/
theorem claim_C4_witness :
    (∃ pre, ([Token.Kw "fn", spT, Token.Ident "foo" (some "fn0"),
      Token.Ponct "(", Token.Ponct ")", Token.Ponct ";"] : List Token) =
      pre ++ [Token.Ponct ";"]) ∧
    Token.Special SpecialToken.Ignored ∉
      ([Token.Kw "fn", spT, Token.Ident "foo" (some "fn0"), Token.Ponct "(",
        Token.Ponct ")", Token.Ponct ";"] : List Token) := by
  have hok : Tokens.from_item sampleFnNoBody [] = .ok
      [Token.Kw "fn", spT, Token.Ident "foo" (some "fn0"), Token.Ponct "(",
       Token.Ponct ")", Token.Ponct ";"] := by decide
  exact (claim_C4 [] sampleFnNoBody _ rfl _ hok).1 rfl

/-- Witness for C5 at a concrete public struct rendering. -/
theorem claim_C5_witness :
    ∃ a rest, with_attrs [] = .ok a ∧
      ([Token.Kw "pub", spT, Token.Kw "struct", spT, Token.Ident "S" (some "s0"),
        spT, obT, tabT, nlT, tabT, Token.Kw "pub", spT, Token.Ident "x" none,
        Token.Ponct ":", spT, Token.Primitive "u8", Token.Ponct ",", nlT, tabT,
        Token.Special (SpecialToken.Hidden false), nlT, cbT] : List Token) =
        a ++ with_visibility .Public ++ Token.Kw "struct" :: rest :=
  claim_C5.2.2.2.2 sampleIdx "s0" (some "S") .Public [] ["f0"] true
    ⟨[], []⟩ _ (by decide)

/-- Witness for C6 at the concrete one-variant enum fixture, exercising the
variant emission loop. -/
theorem claim_C6_witness :
    ∃ (items : List (Item × VariantTy)) (rs : List (List Token)),
      resolveVariants sampleEnumIdx ["v0"] = .ok items ∧
      items.length = (["v0"] : List Id).length ∧
      (∀ i (h1 : i < (["v0"] : List Id).length) (h2 : i < items.length),
        Index.get sampleEnumIdx ((["v0"] : List Id).get ⟨i, h1⟩) =
          some (items.get ⟨i, h2⟩).1) ∧
      rs.length = (["v0"] : List Id).length ∧
      (∀ i (h1 : i < items.length) (h2 : i < rs.length),
        with_enum_variant sampleEnumIdx (items.get ⟨i, h1⟩).1
          (items.get ⟨i, h1⟩).2 = .ok (rs.get ⟨i, h2⟩)) ∧
      List.Sublist rs.flatten
        [Token.Kw "pub", spT, Token.Kw "enum", spT, Token.Ident "E" (some "e0"),
         spT, obT, tabT, nlT, tabT, Token.Ident "V" none, Token.Ponct ",", nlT,
         tabT, Token.Special (.Hidden false), nlT, cbT] :=
  claim_C6.2.2.2.1 sampleEnumIdx "e0" (some "E") .Public []
    ⟨⟨[], []⟩, true, ["v0"]⟩
    [Token.Kw "pub", spT, Token.Kw "enum", spT, Token.Ident "E" (some "e0"),
     spT, obT, tabT, nlT, tabT, Token.Ident "V" none, Token.Ponct ",", nlT,
     tabT, Token.Special (.Hidden false), nlT, cbT] (by decide)

/-- Witness for C8 at a concrete stripped enum with one visible variant. -/
theorem claim_C8_witness :
    ∃ ts, Tokens.from_item sampleEnumItem sampleEnumIdx = .ok ts ∧
      Token.Special (SpecialToken.Hidden false) ∈ ts ∧
      Token.Special (SpecialToken.Hidden true) ∉ ts := by
  have hok : Tokens.from_item sampleEnumItem sampleEnumIdx = .ok
      [Token.Kw "pub", spT, Token.Kw "enum", spT, Token.Ident "E" (some "e0"),
       spT, obT, tabT, nlT, tabT, Token.Ident "V" none, Token.Ponct ",", nlT,
       tabT, Token.Special (.Hidden false), nlT, cbT] := by decide
  have h := (claim_C8.1 sampleEnumIdx sampleEnumItem ⟨⟨[], []⟩, true, ["v0"]⟩
    rfl rfl _ hok).2 (by decide)
  exact ⟨_, hok, h.1, h.2.1⟩

/-- Witness for C10 at the concrete three-parameter function. -/
theorem claim_C10_witness :
    ∃ pre rs post,
      ppMapM renderFnInput sampleFn3Fn.decl.inputs = .ok rs ∧
      rs.length = sampleFn3Fn.decl.inputs.length ∧
      (sampleFn3Fn.decl.inputs.length ≤ 2 →
        ([Token.Kw "fn", spT, Token.Ident "bar" (some "fn3"), Token.Ponct "(",
          nlT, tabT, Token.Ident "a" none, Token.Ponct ":", spT,
          Token.Primitive "u8", Token.Ponct ",", nlT, tabT,
          Token.Ident "b" none, Token.Ponct ":", spT, Token.Primitive "u8",
          Token.Ponct ",", nlT, tabT, Token.Ident "c" none, Token.Ponct ":",
          spT, Token.Primitive "u8", nlT, Token.Ponct ")", Token.Ponct ";"] :
          List Token) =
          pre ++ [Token.Ponct "("] ++
          withRendered [] [] [Token.Ponct ",", spT] rs ++
          varTokens sampleFn3Fn.decl ++ [Token.Ponct ")"] ++ post) ∧
      (2 < sampleFn3Fn.decl.inputs.length →
        rs ≠ [] ∧
        ([Token.Kw "fn", spT, Token.Ident "bar" (some "fn3"), Token.Ponct "(",
          nlT, tabT, Token.Ident "a" none, Token.Ponct ":", spT,
          Token.Primitive "u8", Token.Ponct ",", nlT, tabT,
          Token.Ident "b" none, Token.Ponct ":", spT, Token.Primitive "u8",
          Token.Ponct ",", nlT, tabT, Token.Ident "c" none, Token.Ponct ":",
          spT, Token.Primitive "u8", nlT, Token.Ponct ")", Token.Ponct ";"] :
          List Token) =
          pre ++ [Token.Ponct "("] ++
          ([nlT, tabT] ++ joinBetween [Token.Ponct ",", nlT, tabT] rs ++ [nlT]) ++
          varTokens sampleFn3Fn.decl ++ [Token.Ponct ")"] ++ post) :=
  claim_C10 [] sampleFn3 sampleFn3Fn rfl _ (by decide)

end Rd
